import Mathlib

/-!
Portfolio ingestion pipeline (`src/App.jsx`).

A shallow embedding of the text-record parser (`parseProjectTxt`,
`importProjectTexts`), of the image classifier (`categorizeImage`,
`generateAltText`), of the gallery (`generateGalleryImages`, the pages of
`GalleryPage`, `getRandomImages`), of the rotating indices of `App` and of
`getYouTubeId`.

What the platform supplies is an argument of the function that uses it: the
entries of `import.meta.glob`, the collation behind `localeCompare`, the
outcomes of `Math.random`, the ticks of `setInterval` and the constructor `URL`.

JavaScript strings are modelled as lists of characters.  The text assets are
decoded from UTF-8, so they hold no lone surrogate; every character outside the
Basic Multilingual Plane is neither white space, nor a line terminator, nor a
key character, whether it is counted as one character or as two code units.
-/

namespace Portfolio

/-- A JavaScript string. -/
abbrev Str := List Char

/-! ## Character classes of ECMAScript -/

/-- The characters matched by `\s` and stripped by `String.prototype.trim`:
ECMAScript WhiteSpace together with LineTerminator. -/
def isJsSpace (c : Char) : Bool :=
  let n := c.toNat
  n == 0x09 || n == 0x0A || n == 0x0B || n == 0x0C || n == 0x0D || n == 0x20 ||
  n == 0xA0 || n == 0x1680 || (0x2000 ≤ n && n ≤ 0x200A) || n == 0x2028 ||
  n == 0x2029 || n == 0x202F || n == 0x205F || n == 0x3000 || n == 0xFEFF

/-- ECMAScript LineTerminator: the characters `.` does not match. -/
def isLineTerminator (c : Char) : Bool :=
  let n := c.toNat
  n == 0x0A || n == 0x0D || n == 0x2028 || n == 0x2029

/-- The regex atom `.` (no `s` flag). -/
def isDotChar (c : Char) : Bool := !isLineTerminator c

/-- The character class `[A-Za-zÀ-ÿ_ ]` of the key pattern. -/
def isKeyChar (c : Char) : Bool :=
  let n := c.toNat
  (0x41 ≤ n && n ≤ 0x5A) || (0x61 ≤ n && n ≤ 0x7A) || (0xC0 ≤ n && n ≤ 0xFF) ||
  n == 0x5F || n == 0x20

/-! ## String methods -/

/-- `String.prototype.trim`. -/
def trim (s : Str) : Str := (s.dropWhile isJsSpace).rdropWhile isJsSpace

/-- `toLowerCase` on one character of Basic Latin or Latin-1 (the characters the
key pattern admits, the only ones it is applied to): `A-Z` and `À-Þ` except `×`
move down by 32, every other character is unchanged. -/
def toLowerChar (c : Char) : Char :=
  let n := c.toNat
  if (0x41 ≤ n && n ≤ 0x5A) || (0xC0 ≤ n && n ≤ 0xDE && n != 0xD7) then Char.ofNat (n + 32)
  else c

/-- `String.prototype.toLowerCase`, see `toLowerChar`. -/
def toLowerCase (s : Str) : Str := s.map toLowerChar

/-- `rawText.split(/\r?\n/)`: the pieces between the separators `\r\n` and `\n`. -/
def splitLines : Str → List Str
  | [] => [[]]
  | '\n' :: rest => [] :: splitLines rest
  | '\r' :: '\n' :: rest => [] :: splitLines rest
  | c :: rest =>
    match splitLines rest with
    | l :: ls => (c :: l) :: ls
    | [] => [[c]]

/-- `Array.prototype.join` with separator `'\n'`. -/
def joinLines (xs : List Str) : Str := List.intercalate ['\n'] xs

/-- JavaScript `a || b` on strings: the empty string is the only falsy one. -/
def strOr (a b : Str) : Str := if a = [] then b else a

/-! ## The key pattern `/^\s*([A-Za-zÀ-ÿ_ ]+)\s*:\s*(.*)$/` -/

/-- The ways a greedy `p*` can match at the start of `s`, longest first, each
with the rest of the input: the order in which backtracking tries them. -/
def greedySplits (p : Char → Bool) : Str → List (Str × Str)
  | [] => [([], [])]
  | c :: t =>
    if p c then (greedySplits p t).map (fun x => (c :: x.1, x.2)) ++ [([], c :: t)]
    else [([], c :: t)]

/-- The tail `:\s*(.*)$` of the pattern, with `k` the text captured by group 1. -/
def matchValue (k : Str) : Str → Option (Str × Str)
  | ':' :: r4 =>
    (greedySplits isJsSpace r4).findSome? fun w3 =>
      (greedySplits isDotChar w3.2).findSome? fun v =>
        if v.2 = [] then some (k, v.1) else none
  | _ => none

/-- `line.match(/^\s*([A-Za-zÀ-ÿ_ ]+)\s*:\s*(.*)$/)`: the two captured groups of the
first successful backtracking path, `none` for `null`. -/
def lineMatch (line : Str) : Option (Str × Str) :=
  (greedySplits isJsSpace line).findSome? fun w1 =>
    ((greedySplits isKeyChar w1.2).filter fun k => k.1 ≠ []).findSome? fun k =>
      (greedySplits isJsSpace k.2).findSome? fun w2 => matchValue k.1 w2.2

/-! ## `parseProjectTxt` -/

/-- The object `data` of `parseProjectTxt`. -/
structure ParsedData where
  title : Str
  description : Str
  youtube : Str
  videoFile : Str
  role : Str
  year : Str
  id : Str
  deriving DecidableEq, Repr

/-- The variables of the loop over the lines. -/
structure LoopState where
  data : ParsedData
  collectingDescription : Bool
  descriptionBuffer : List Str
  deriving DecidableEq, Repr

/-- The fields a recognised key selects. -/
inductive Field where
  | title | description | youtube | videoFile | role | year
  deriving DecidableEq, Repr

/-- The chain of comparisons `key === ...` of the loop body; `none` when no
branch is taken. -/
def keyField (key : Str) : Option Field :=
  if key = "título".toList ∨ key = "titulo".toList ∨ key = "title".toList then some .title
  else if key = "descrição".toList ∨ key = "descricao".toList ∨ key = "description".toList then
    some .description
  else if key = "youtube".toList ∨ key = "link".toList ∨ key = "url".toList then some .youtube
  else if key = "videofile".toList ∨ key = "arquivo".toList ∨ key = "arquivo de vídeo".toList ∨
      key = "arquivo de video".toList then some .videoFile
  else if key = "função".toList ∨ key = "funcao".toList ∨ key = "role".toList then some .role
  else if key = "ano".toList ∨ key = "year".toList then some .year
  else none

/-- The branch of the chain taken for the key, after the assignment
`collectingDescription = false` that precedes the chain. -/
def assign (st : LoopState) (field : Option Field) (value : Str) : LoopState :=
  match field with
  | some .title =>
    { st with collectingDescription := false, data := { st.data with title := value } }
  | some .description =>
    { st with collectingDescription := true,
              descriptionBuffer := if value = [] then [] else [value] }
  | some .youtube =>
    { st with collectingDescription := false, data := { st.data with youtube := value } }
  | some .videoFile =>
    { st with collectingDescription := false, data := { st.data with videoFile := value } }
  | some .role =>
    { st with collectingDescription := false, data := { st.data with role := value } }
  | some .year =>
    { st with collectingDescription := false, data := { st.data with year := value } }
  | none => { st with collectingDescription := false }

/-- One iteration of `for (const line of lines)`. -/
def stepLine (st : LoopState) (line : Str) : LoopState :=
  match lineMatch line with
  | some m => assign st (keyField (toLowerCase (trim m.1))) (trim m.2)
  | none =>
    if st.collectingDescription then
      { st with descriptionBuffer := st.descriptionBuffer ++ [line] }
    else st

/-- The state before the loop. -/
def initState (filePath : Str) : LoopState :=
  { data := { title := [], description := [], youtube := [], videoFile := [], role := [],
              year := [], id := filePath },
    collectingDescription := false,
    descriptionBuffer := [] }

/-- The statement after the loop and the `return`. -/
def finish (st : LoopState) : ParsedData :=
  if st.descriptionBuffer.length ≠ 0 then
    { st.data with description := trim (joinLines st.descriptionBuffer) }
  else st.data

/-- The loop and what follows it, on the lines of the text. -/
def parseLines (lines : List Str) (filePath : Str) : ParsedData :=
  finish (lines.foldl stepLine (initState filePath))

/-- `parseProjectTxt(rawText, filePath)`. -/
def parseProjectTxt (rawText filePath : Str) : ParsedData :=
  parseLines (splitLines rawText) filePath

/-! ## `importProjectTexts` -/

/-- The objects pushed on `projects`. -/
structure ProjectRecord where
  id : Str
  title : Str
  description : Str
  videoUrl : Str
  videoFile : Str
  role : Str
  year : Str
  deriving DecidableEq, Repr

/-- The placeholder title. -/
def untitled : Str := "Projeto sem título".toList

/-- The object literal built from `parsed` ("valores padrão e normalização"). -/
def toRecord (parsed : ParsedData) : ProjectRecord :=
  { id := parsed.id,
    title := strOr parsed.title untitled,
    description := strOr parsed.description [],
    videoUrl := strOr parsed.youtube [],
    videoFile := strOr parsed.videoFile [],
    role := strOr parsed.role [],
    year := strOr parsed.year [] }

/-- The callback of `forEach` with its `try`/`catch`, on one entry `[path, raw]`:
a parse that raises leaves `projects` as it was.  The parser is a parameter, so
that the `catch` branch can be exercised. -/
def importEntry {ε : Type} (parse : Str → Str → Except ε ParsedData)
    (projects : List ProjectRecord) (entry : Str × Str) : List ProjectRecord :=
  match parse entry.2 entry.1 with
  | .ok parsed => projects ++ [toRecord parsed]
  | .error _ => projects

/-- The loop of `importProjectTexts` over the entries of the glob, for a parser
that may raise. -/
def importWith {ε : Type} (parse : Str → Str → Except ε ParsedData)
    (entries : List (Str × Str)) : List ProjectRecord :=
  entries.foldl (importEntry parse) []

/-- `importProjectTexts()`, with the entries `[path, raw]` of
`import.meta.glob('./assets/projects/**/*.txt', ...)` as its argument;
`parseProjectTxt` returns on every string. -/
def importProjectTexts (entries : List (Str × Str)) : List ProjectRecord :=
  importWith (fun raw path => (Except.ok (parseProjectTxt raw path) : Except Unit ParsedData))
    entries

/-! ## `categorizeImage` -/

/-- `String.prototype.split` with a one-character separator. -/
def splitOn (sep : Char) : Str → List Str
  | [] => [[]]
  | c :: rest =>
    if c = sep then [] :: splitOn sep rest
    else
      match splitOn sep rest with
      | l :: ls => (c :: l) :: ls
      | [] => [[c]]

/-- The value of a digit of `parseInt`: `0-9`, then `a-z` and `A-Z` for 10 to 35. -/
def digitValue (c : Char) : Option Nat :=
  let n := c.toNat
  if 0x30 ≤ n ∧ n ≤ 0x39 then some (n - 0x30)
  else if 0x61 ≤ n ∧ n ≤ 0x7A then some (n - 0x61 + 10)
  else if 0x41 ≤ n ∧ n ≤ 0x5A then some (n - 0x41 + 10)
  else none

/-- Whether `c` is a digit of the radix. -/
def isRadixDigit (radix : Nat) (c : Char) : Bool :=
  match digitValue c with
  | some d => decide (d < radix)
  | none => false

/-- The integer a run of digits denotes in the radix. -/
def digitsValue (radix : Nat) (ds : Str) : Nat :=
  ds.foldl (fun acc c => acc * radix + (digitValue c).getD 0) 0

/-- The optional sign read by `parseInt`, with the rest of the input. -/
def readSign (s : Str) : Int × Str :=
  match s with
  | '-' :: t => (-1, t)
  | '+' :: t => (1, t)
  | _ => (1, s)

/-- The radix `parseInt` selects when none is given, with the rest of the input:
16 after a prefix `0x` or `0X`, which is skipped, else 10. -/
def readRadix (s : Str) : Nat × Str :=
  match s with
  | '0' :: 'x' :: t => (16, t)
  | '0' :: 'X' :: t => (16, t)
  | _ => (10, s)

/-- The global `parseInt(string)` without a radix, `none` for `NaN`: white space
is skipped, a sign is read, a prefix `0x` or `0X` selects radix 16, and the longest
run of digits is the value.  An argument `undefined` (`none`) reads as the text
`undefined` and gives `NaN`.  The value is the exact integer: JavaScript rounds it
to a double, which changes it only above `2^53`, and a rounded value is then still
above `2^53`, so that comparisons with the constants below are not affected. -/
def parseInt (input : Option Str) : Option Int :=
  match input with
  | none => none
  | some string =>
    let signed := readSign (string.dropWhile isJsSpace)
    let based := readRadix signed.2
    let digits := based.2.takeWhile (isRadixDigit based.1)
    if digits = [] then none else some (signed.1 * (digitsValue based.1 digits : Int))

/-- `Array.prototype.includes` on an array of integers: `NaN` is in none. -/
def includes (xs : List Int) (number : Option Int) : Bool :=
  match number with
  | some n => decide (n ∈ xs)
  | none => false

/-- `categorizeImage(imageName)`. -/
def categorizeImage (imageName : Str) : Str :=
  if "IMG_".toList.isPrefixOf imageName then "retratos".toList
  else if "RIK-".toList.isPrefixOf imageName then
    let number := parseInt ((splitOn '-' imageName)[1]?)
    if includes [4487, 4501, 4504, 4508, 6640, 6663, 6672, 6682, 6715] number then
      "eventos".toList
    else if includes [4512, 4513, 4515] number then "grupos".toList
    else if includes [3694, 6631, 6696] number then "paisagens".toList
    else if includes [6452, 6478, 6479, 6744] number then "retratos".toList
    else "retratos".toList
  else "retratos".toList

/-! ## `generateAltText` and `generateGalleryImages` -/

/-- The value of `altTexts[category] || 'Fotografia profissional'`: a label, or,
when `category` names a property that the object literal inherits from
`Object.prototype`, that inherited value, which is not a string. -/
inductive AltText where
  | label (text : Str)
  | inherited (property : Str)
  deriving DecidableEq, Repr

/-- The property names every object literal inherits from `Object.prototype`;
each of the inherited values is a function or an object, hence truthy. -/
def objectPrototypeKeys : List Str :=
  ["constructor".toList, "hasOwnProperty".toList, "isPrototypeOf".toList,
   "propertyIsEnumerable".toList, "toLocaleString".toList, "toString".toList,
   "valueOf".toList, "__proto__".toList, "__defineGetter__".toList,
   "__defineSetter__".toList, "__lookupGetter__".toList, "__lookupSetter__".toList]

/-- `generateAltText(category, imageName)`. -/
def generateAltText (category _imageName : Str) : AltText :=
  if category = "retratos".toList then .label "Retrato profissional".toList
  else if category = "eventos".toList then .label "Fotografia de evento".toList
  else if category = "grupos".toList then .label "Fotografia de grupo".toList
  else if category = "paisagens".toList then .label "Fotografia de paisagem".toList
  else if category ∈ objectPrototypeKeys then .inherited category
  else .label "Fotografia profissional".toList

/-- The objects pushed on `galleryImages`. -/
structure GalleryImage where
  src : Str
  category : Str
  alt : AltText
  name : Str
  deriving DecidableEq, Repr

/-- The callback of `Object.keys(allImages).forEach`, on one image name with its
`allImages[imageName]`: the hero image is skipped. -/
def galleryEntry (galleryImages : List GalleryImage) (entry : Str × Str) :
    List GalleryImage :=
  if entry.1 = "IMG_9998".toList then galleryImages
  else
    galleryImages ++
      [{ src := entry.2,
         category := categorizeImage entry.1,
         alt := generateAltText (categorizeImage entry.1) entry.1,
         name := entry.1 }]

/-- The array `categoryOrder`. -/
def categoryOrder : List Str :=
  ["retratos".toList, "eventos".toList, "grupos".toList, "paisagens".toList]

/-- `Array.prototype.indexOf` on an array of strings: `-1` when absent. -/
def indexOf (xs : List Str) (x : Str) : Int :=
  match xs.findIdx? (fun y => y = x) with
  | some i => (i : Int)
  | none => -1

/-- The comparison function given to `sort`, with `String.prototype.localeCompare`
as a parameter: its result depends on the collation of the platform. -/
def compareImages (localeCompare : Str → Str → Int) (a b : GalleryImage) : Int :=
  if a.category ≠ b.category then indexOf categoryOrder a.category - indexOf categoryOrder b.category
  else localeCompare a.name b.name

/-- `Array.prototype.sort(comparefn)`, which is stable: an element goes before
the first element of the sorted rest that it does not compare greater than. -/
def sortBy {α : Type} (comparefn : α → α → Int) (xs : List α) : List α :=
  xs.insertionSort (fun a b => comparefn a b ≤ 0)

/-- `generateGalleryImages()`, with the entries `[imageName, allImages[imageName]]`
of the object `importAllImages()` returns, in the order of `Object.keys`, and
`localeCompare` as its arguments. -/
def generateGalleryImages (localeCompare : Str → Str → Int) (allImages : List (Str × Str)) :
    List GalleryImage :=
  sortBy (compareImages localeCompare) (allImages.foldl galleryEntry [])

/-! ## `GalleryPage`: pagination -/

/-- The constant `imagesPerPage`. -/
def imagesPerPage : Nat := 12

/-- `Array.prototype.slice(start, end)` for integer arguments: a negative
argument counts from the end, and both are clamped to the length. -/
def slice {α : Type} (xs : List α) (start stop : Int) : List α :=
  let len : Int := xs.length
  let first := if start < 0 then max (len + start) 0 else min start len
  let last := if stop < 0 then max (len + stop) 0 else min stop len
  (xs.drop first.toNat).take (last - first).toNat

/-- The array `currentImages` of `GalleryPage` for the state `currentPage`. -/
def currentImages {α : Type} (galleryImages : List α) (currentPage : Int) : List α :=
  let indexOfLastImage := currentPage * imagesPerPage
  let indexOfFirstImage := indexOfLastImage - imagesPerPage
  slice galleryImages indexOfFirstImage indexOfLastImage

/-- `totalPages = Math.ceil(galleryImages.length / imagesPerPage)`, as a function
of the length.  The quotient of an array length (below `2^32`) by 12 is a double
whose ceiling is the ceiling of the exact quotient. -/
def totalPages (length : Nat) : Nat := (length + (imagesPerPage - 1)) / imagesPerPage

/-- The page `goToPreviousPage` sets: `currentPage - 1` when `currentPage > 1`,
the state is left alone otherwise. -/
def goToPreviousPage (currentPage : Int) : Int :=
  if currentPage > 1 then currentPage - 1 else currentPage

/-- The page `goToNextPage` sets: `currentPage + 1` when `currentPage < totalPages`,
the state is left alone otherwise. -/
def goToNextPage (length : Nat) (currentPage : Int) : Int :=
  if currentPage < (totalPages length : Int) then currentPage + 1 else currentPage

/-! ## `getRandomImages` -/

/-- The insertion of `sortBy` for the comparison function `() => 0.5 - Math.random()`,
which ignores its arguments: `outcome k` is the value of its call number `k`, and
the second component is the number of the next call. -/
def insertRandom {α : Type} (outcome : Nat → Int) (a : α) : List α → Nat → List α × Nat
  | [], k => ([a], k)
  | b :: l, k =>
    if outcome k ≤ 0 then (a :: b :: l, k + 1)
    else ((b :: (insertRandom outcome a l (k + 1)).1), (insertRandom outcome a l (k + 1)).2)

/-- `sort(() => 0.5 - Math.random())`: the sort of `sortBy`, each comparison
drawing a new outcome. -/
def sortRandom {α : Type} (outcome : Nat → Int) : List α → Nat → List α × Nat
  | [], k => ([], k)
  | b :: l, k => insertRandom outcome b (sortRandom outcome l k).1 (sortRandom outcome l k).2

/-- `getRandomImages()`, with the outcomes of the random comparison function and
the array `galleryImages` as its arguments. -/
def getRandomImages {α : Type} (outcome : Nat → Int) (galleryImages : List α) : List α :=
  slice (sortRandom outcome galleryImages 0).1 0 3

/-! ## `App`: the rotating indices -/

/-- The updater `(prevIndex) => (prevIndex + 1) % length` on a state that is a
number: `none` is `NaN`, the remainder by zero. -/
def rotateIndex (length : Nat) (prevIndex : Option Nat) : Option Nat :=
  match prevIndex with
  | some i => if length = 0 then none else some ((i + 1) % length)
  | none => none

/-- The state `currentBackgroundIndex` after `ticks` ticks of the interval: the
interval is set only when `backgroundImages.length > 1`, and the state starts
at 0. -/
def backgroundIndexAfter (length ticks : Nat) : Option Nat :=
  if length > 1 then (rotateIndex length)^[ticks] (some 0) else some 0

/-- The state `currentBiographyIndex` after `ticks` ticks of the interval: the
interval is set only when `biographyImages.length > 0`, and the state starts
at 0. -/
def biographyIndexAfter (length ticks : Nat) : Option Nat :=
  if length > 0 then (rotateIndex length)^[ticks] (some 0) else some 0

/-! ## `getYouTubeId` -/

/-- What `getYouTubeId` reads of the object `new URL(url)`: `hostname`, `pathname`
and the list of name-value pairs behind `searchParams`. -/
structure UrlRecord where
  hostname : Str
  pathname : Str
  searchParams : List (Str × Str)
  deriving DecidableEq, Repr

/-- `String.prototype.includes`. -/
def stringIncludes (s sub : Str) : Bool := s.tails.any (fun t => sub.isPrefixOf t)

/-- `parts[idx + 1]` when `idx >= 0 && parts[idx + 1]` holds, for
`idx = parts.findIndex(p => p === 'shorts' || p === 'embed')`, and `''` otherwise. -/
def segmentAfterMarker (parts : List Str) : Str :=
  match parts.findIdx? (fun p => p = "shorts".toList ∨ p = "embed".toList) with
  | some idx =>
    match parts[idx + 1]? with
    | some part => part
    | none => []
  | none => []

/-- The body of `getYouTubeId` after `new URL(url)` has returned `u`. -/
def youTubeIdOf (u : UrlRecord) : Str :=
  if stringIncludes u.hostname "youtu.be".toList then u.pathname.drop 1
  else
    match u.searchParams.lookup "v".toList with
    | some (c :: v) => c :: v
    | _ => segmentAfterMarker (splitOn '/' u.pathname)

/-- `getYouTubeId(url)`, with the constructor `URL` of the platform as a
parameter: `none` stands for the `TypeError` it throws on a string that does not
parse. -/
def getYouTubeId (newURL : Str → Option UrlRecord) (url : Str) : Str :=
  if url = [] then []
  else
    match newURL url with
    | some u => youTubeIdOf u
    | none => []

/-! ## Vocabulary of the statements -/

/-- The field the key of a line selects: `none` when the line does not match the
key pattern or its key is not a recognised one. -/
def lineField (line : Str) : Option Field :=
  match lineMatch line with
  | some m => keyField (toLowerCase (trim m.1))
  | none => none

/-- The eighteen spellings the chain of `keyField` compares with. -/
def recognizedKeys : List Str :=
  ["título".toList, "titulo".toList, "title".toList,
   "descrição".toList, "descricao".toList, "description".toList,
   "youtube".toList, "link".toList, "url".toList,
   "videofile".toList, "arquivo".toList, "arquivo de vídeo".toList, "arquivo de video".toList,
   "função".toList, "funcao".toList, "role".toList, "ano".toList, "year".toList]

/-- Accent removal in the words of the specification ("accent-normalized"): each
letter of Latin-1 that carries a diacritic goes to its base letter.  The source
has no such step; the definition serves to state what the specification asks. -/
def specRemoveAccent (c : Char) : Char :=
  let n := c.toNat
  if 0xC0 ≤ n ∧ n ≤ 0xC5 then 'A' else if n = 0xC7 then 'C'
  else if 0xC8 ≤ n ∧ n ≤ 0xCB then 'E' else if 0xCC ≤ n ∧ n ≤ 0xCF then 'I'
  else if n = 0xD1 then 'N' else if (0xD2 ≤ n ∧ n ≤ 0xD6) ∨ n = 0xD8 then 'O'
  else if 0xD9 ≤ n ∧ n ≤ 0xDC then 'U' else if n = 0xDD then 'Y'
  else if 0xE0 ≤ n ∧ n ≤ 0xE5 then 'a' else if n = 0xE7 then 'c'
  else if 0xE8 ≤ n ∧ n ≤ 0xEB then 'e' else if 0xEC ≤ n ∧ n ≤ 0xEF then 'i'
  else if n = 0xF1 then 'n' else if (0xF2 ≤ n ∧ n ≤ 0xF6) ∨ n = 0xF8 then 'o'
  else if 0xF9 ≤ n ∧ n ≤ 0xFC then 'u' else if n = 0xFD ∨ n = 0xFF then 'y'
  else c

/-- The text of a record of the shape `Título: X`, `Descrição: l1`, the lines of
`rest`, `Youtube: U`, its lines joined by line feeds. -/
def recordText (X l1 : Str) (rest : List Str) (U : Str) : Str :=
  joinLines (("Título: ".toList ++ X) :: ("Descrição: ".toList ++ l1) ::
    (rest ++ ["Youtube: ".toList ++ U]))

/-- The loop state with the `id` of its record replaced. -/
def withId (st : LoopState) (p : Str) : LoopState :=
  { st with data := { st.data with id := p } }

/-- The trimmed value of a line whose key selects the field `f`. -/
def fieldValue (f : Field) (line : Str) : Option Str :=
  match lineMatch line with
  | some m => if keyField (toLowerCase (trim m.1)) = some f then some (trim m.2) else none
  | none => none

/-- The trimmed values of the lines whose key selects the field `f`, in the order
of the text. -/
def fieldValues (f : Field) (lines : List Str) : List Str :=
  lines.filterMap (fieldValue f)

/-- The four membership tests of `categorizeImage`, each with its category, in
the order of the source. -/
def numberTests : List (List Int × Str) :=
  [([4487, 4501, 4504, 4508, 6640, 6663, 6672, 6682, 6715], "eventos".toList),
   ([4512, 4513, 4515], "grupos".toList),
   ([3694, 6631, 6696], "paisagens".toList),
   ([6452, 6478, 6479, 6744], "retratos".toList)]

/-- The category of the first test of the list that the number passes, and
`retratos` when it passes none. -/
def firstTest (tests : List (List Int × Str)) (number : Option Int) : Str :=
  match tests with
  | [] => "retratos".toList
  | t :: rest => if includes t.1 number then t.2 else firstTest rest number

/-- What ECMAScript asks of a comparison function such as `localeCompare`, for
which every stable sort returns the same array: comparing less one way is
comparing greater the other way, and not comparing greater is transitive. -/
def ConsistentComparator (cmp : Str → Str → Int) : Prop :=
  (∀ a b, cmp a b < 0 ↔ 0 < cmp b a) ∧ (∀ a b c, cmp a b ≤ 0 → cmp b c ≤ 0 → cmp a c ≤ 0)

/-- The gallery entry of an image name with its source. -/
def toGalleryImage (entry : Str × Str) : GalleryImage :=
  { src := entry.2,
    category := categorizeImage entry.1,
    alt := generateAltText (categorizeImage entry.1) entry.1,
    name := entry.1 }

/-- Comparison of two strings code point by code point: a comparison function
used in the instances, where the platform has `localeCompare`. -/
def codePointCompare : Str → Str → Int
  | [], [] => 0
  | [], _ :: _ => -1
  | _ :: _, [] => 1
  | a :: s, b :: t =>
    if a.toNat < b.toNat then -1
    else if b.toNat < a.toNat then 1
    else codePointCompare s t

/-- Composition of `e` followed by the combining acute accent U+0301 into `é`
(U+00E9): the two spellings are canonically equivalent. -/
def composeAcute : Str → Str
  | [] => []
  | [c] => [c]
  | a :: b :: t =>
    if a = 'e' ∧ b.toNat = 0x301 then Char.ofNat 0xE9 :: composeAcute t
    else a :: composeAcute (b :: t)

/-- A comparison function that, as `localeCompare` is required to, returns 0 on
canonically equivalent strings: here on the two spellings of `é`. -/
def canonicalCompare (a b : Str) : Int :=
  codePointCompare (composeAcute a) (composeAcute b)

/-- An identifier made of letters, digits, `-` and `_`. -/
def IdChars (id : Str) : Prop := ∀ c ∈ id, c.isAlphanum = true ∨ c = '-' ∨ c = '_'

instance (id : Str) : Decidable (IdChars id) := by
  unfold IdChars; infer_instance

/-- What the URL Standard gives for the four YouTube shapes with the identifier
`id`: the host, the path and the query pairs are read off the string, nothing in
them needing encoding. -/
def ParsesYouTubeShapes (newURL : Str → Option UrlRecord) (id : Str) : Prop :=
  newURL ("https://youtu.be/".toList ++ id) =
    some { hostname := "youtu.be".toList, pathname := '/' :: id, searchParams := [] } ∧
  newURL ("https://www.youtube.com/watch?v=".toList ++ id) =
    some { hostname := "www.youtube.com".toList, pathname := "/watch".toList,
           searchParams := [("v".toList, id)] } ∧
  newURL ("https://www.youtube.com/shorts/".toList ++ id) =
    some { hostname := "www.youtube.com".toList, pathname := "/shorts/".toList ++ id,
           searchParams := [] } ∧
  newURL ("https://www.youtube.com/embed/".toList ++ id) =
    some { hostname := "www.youtube.com".toList, pathname := "/embed/".toList ++ id,
           searchParams := [] }

instance (newURL : Str → Option UrlRecord) (id : Str) :
    Decidable (ParsesYouTubeShapes newURL id) := by
  unfold ParsesYouTubeShapes; infer_instance

/-- The pairs of a query string without encoded characters: the pieces between
`&`, each cut at its first `=`. -/
def plainQueryPairs (query : Str) : List (Str × Str) :=
  ((splitOn '&' query).filter (fun kv => kv ≠ [])).map
    (fun kv => (kv.takeWhile (fun c => c ≠ '='), (kv.dropWhile (fun c => c ≠ '=')).drop 1))

/-- A reader of plain URLs `https://host/path?query#fragment`, used as the
constructor `URL` in the instances: on a URL whose parts need no encoding, no host
mapping and no removal of dot segments it returns what the URL Standard returns;
it rejects every string that does not start with `https://` or has no host. -/
def plainHttpsUrl (url : Str) : Option UrlRecord :=
  if "https://".toList.isPrefixOf url then
    let rest := url.drop 8
    let host := rest.takeWhile (fun c => c ≠ '/' ∧ c ≠ '?' ∧ c ≠ '#')
    let afterHost := rest.dropWhile (fun c => c ≠ '/' ∧ c ≠ '?' ∧ c ≠ '#')
    let path := afterHost.takeWhile (fun c => c ≠ '?' ∧ c ≠ '#')
    let afterPath := afterHost.dropWhile (fun c => c ≠ '?' ∧ c ≠ '#')
    let query := (afterPath.drop 1).takeWhile (fun c => c ≠ '#')
    if host = [] then none
    else
      some { hostname := host,
             pathname := if path = [] then ['/'] else path,
             searchParams := if afterPath.head? = some '?' then plainQueryPairs query else [] }
  else none

/-- The field `f` of a parsed record. -/
def getField (f : Field) (d : ParsedData) : Str :=
  match f with
  | .title => d.title
  | .description => d.description
  | .youtube => d.youtube
  | .videoFile => d.videoFile
  | .role => d.role
  | .year => d.year

/-- A string without a line terminator. -/
def NoLineBreak (s : Str) : Prop := ∀ c ∈ s, isLineTerminator c = false

instance (s : Str) : Decidable (NoLineBreak s) := by
  unfold NoLineBreak; infer_instance

/-! ## Lemmas on the string methods -/

theorem greedySplits_head (p : Char → Bool) (s : Str) :
    ∃ tl, greedySplits p s = (s.takeWhile p, s.dropWhile p) :: tl := by
  induction s with
  | nil => exact ⟨[], rfl⟩
  | cons c t ih =>
    obtain ⟨tl, htl⟩ := ih
    by_cases hc : p c = true
    · refine ⟨tl.map (fun x => (c :: x.1, x.2)) ++ [([], c :: t)], ?_⟩
      simp [greedySplits, hc, htl]
    · refine ⟨[], ?_⟩
      simp [greedySplits, hc]

theorem findSome_greedySplits {α : Type} (p : Char → Bool) (s : Str)
    (f : Str × Str → Option α) (r : α) (h : f (s.takeWhile p, s.dropWhile p) = some r) :
    (greedySplits p s).findSome? f = some r := by
  obtain ⟨tl, htl⟩ := greedySplits_head p s
  rw [htl, List.findSome?_cons, h]

theorem takeWhile_append_stop (p : Char → Bool) (k : Str) (x : Char) (r : Str)
    (hk : ∀ c ∈ k, p c = true) (hx : p x = false) :
    (k ++ x :: r).takeWhile p = k := by
  induction k with
  | nil => simp [List.takeWhile, hx]
  | cons c t ih =>
    have hc : p c = true := hk c (List.mem_cons_self _ _)
    simp [List.takeWhile, hc, ih (fun d hd => hk d (List.mem_cons_of_mem _ hd))]

theorem dropWhile_append_stop (p : Char → Bool) (k : Str) (x : Char) (r : Str)
    (hk : ∀ c ∈ k, p c = true) (hx : p x = false) :
    (k ++ x :: r).dropWhile p = x :: r := by
  induction k with
  | nil => simp [List.dropWhile, hx]
  | cons c t ih =>
    have hc : p c = true := hk c (List.mem_cons_self _ _)
    simp [List.dropWhile, hc, ih (fun d hd => hk d (List.mem_cons_of_mem _ hd))]

/-- The first backtracking path of the key pattern succeeds when the greedy
choices line up. -/
theorem lineMatch_of_greedy (line k r4 : Str)
    (hk : (line.dropWhile isJsSpace).takeWhile isKeyChar = k) (hk0 : k ≠ [])
    (hc : ((line.dropWhile isJsSpace).dropWhile isKeyChar).dropWhile isJsSpace = ':' :: r4)
    (hv : ∀ c ∈ r4.dropWhile isJsSpace, isDotChar c = true) :
    lineMatch line = some (k, r4.dropWhile isJsSpace) := by
  unfold lineMatch
  apply findSome_greedySplits
  obtain ⟨tl, htl⟩ := greedySplits_head isKeyChar (line.dropWhile isJsSpace)
  simp only [htl, hk]
  rw [List.filter_cons_of_pos (by simpa using hk0), List.findSome?_cons]
  rw [findSome_greedySplits isJsSpace _ _ (k, r4.dropWhile isJsSpace)]
  simp only [hc, matchValue]
  apply findSome_greedySplits
  apply findSome_greedySplits
  have h1 : (r4.dropWhile isJsSpace).takeWhile isDotChar = r4.dropWhile isJsSpace :=
    List.takeWhile_eq_self_iff.mpr hv
  have h2 : (r4.dropWhile isJsSpace).dropWhile isDotChar = [] :=
    List.dropWhile_eq_nil_iff.mpr hv
  simp [h1, h2]

/-- A line `K:post` whose key starts with a character that is not white space. -/
theorem lineMatch_key (c : Char) (t post : Str) (hc : isJsSpace c = false)
    (hk : ∀ d ∈ c :: t, isKeyChar d = true)
    (hv : ∀ d ∈ post.dropWhile isJsSpace, isDotChar d = true) :
    lineMatch ((c :: t) ++ ':' :: post) = some (c :: t, post.dropWhile isJsSpace) := by
  have h0 : ((c :: t) ++ ':' :: post).dropWhile isJsSpace = (c :: t) ++ ':' :: post := by
    simp [List.dropWhile, hc]
  apply lineMatch_of_greedy
  · rw [h0]; exact takeWhile_append_stop _ _ _ _ hk (by decide)
  · simp
  · rw [h0, dropWhile_append_stop _ _ _ _ hk (by decide)]
    have hcolon : isJsSpace ':' = false := by decide
    simp [List.dropWhile, hcolon]
  · exact hv

theorem toNat_ofNat_of_lt (n : Nat) (h : n < 0xD800) : (Char.ofNat n).toNat = n := by
  have hv : n.isValidChar := Or.inl h
  simp only [Char.ofNat, dif_pos hv, Char.toNat, Char.ofNatAux]
  rfl

theorem isJsSpace_toLowerChar (c : Char) : isJsSpace (toLowerChar c) = isJsSpace c := by
  unfold toLowerChar
  simp only
  split
  · rename_i h
    simp only [Bool.or_eq_true, Bool.and_eq_true, decide_eq_true_eq, bne_iff_ne] at h
    have e : (Char.ofNat (c.toNat + 32)).toNat = c.toNat + 32 :=
      toNat_ofNat_of_lt _ (by omega)
    rw [Bool.eq_iff_iff]
    simp only [isJsSpace, e, Bool.or_eq_true, Bool.and_eq_true, decide_eq_true_eq, beq_iff_eq]
    omega
  · rfl

theorem trim_nil : trim [] = [] := by decide

theorem trim_dropWhile (s : Str) : trim (s.dropWhile isJsSpace) = trim s := by
  unfold trim
  rw [List.dropWhile_idempotent]

theorem rdropWhile_cons_of_neg (p : Char → Bool) (c : Char) (t : Str) (h : p c = false) :
    (c :: t).rdropWhile p = c :: t.rdropWhile p := by
  induction t using List.reverseRecOn with
  | nil => simp [List.rdropWhile_singleton, h]
  | append_singleton l x ih =>
    by_cases hx : p x = true
    · rw [← List.cons_append, List.rdropWhile_concat_pos _ _ _ hx,
        List.rdropWhile_concat_pos _ _ _ hx, ih]
    · rw [← List.cons_append, List.rdropWhile_concat_neg _ _ _ hx,
        List.rdropWhile_concat_neg _ _ _ hx, List.cons_append]

theorem trim_cases (s : Str) :
    trim s = [] ∨ ∃ (c : Char) (t : Str), isJsSpace c = false ∧ trim s = c :: t.rdropWhile isJsSpace := by
  unfold trim
  cases h : s.dropWhile isJsSpace with
  | nil => left; rfl
  | cons c t =>
    right
    have hc : isJsSpace c = false := by
      have := List.head_dropWhile_not isJsSpace s (by simp [h])
      simpa [h] using this
    exact ⟨c, t, hc, rdropWhile_cons_of_neg _ _ _ hc⟩

theorem trim_trim (s : Str) : trim (trim s) = trim s := by
  rcases trim_cases s with h | ⟨c, t, hc, h⟩
  · rw [h]; rfl
  · rw [h]
    unfold trim
    simp only [List.dropWhile, hc]
    rw [rdropWhile_cons_of_neg _ _ _ hc, List.rdropWhile_idempotent]

theorem toLowerCase_trim (s : Str) : toLowerCase (trim s) = trim (toLowerCase s) := by
  have hp : (isJsSpace ∘ toLowerChar) = isJsSpace := funext isJsSpace_toLowerChar
  unfold toLowerCase trim List.rdropWhile
  rw [List.dropWhile_map, ← List.map_reverse, List.dropWhile_map, hp, List.map_reverse]


/-! ## Lemmas on `splitLines` -/

theorem splitLines_ne_nil (s : Str) : splitLines s ≠ [] := by
  induction s using splitLines.induct <;> simp_all [splitLines]

theorem splitLines_cons (c : Char) (rest : Str) (h : isLineTerminator c = false) :
    splitLines (c :: rest) = (match splitLines rest with
      | l :: ls => (c :: l) :: ls
      | [] => [[c]]) := by
  have h1 : c ≠ '\n' := by rintro rfl; revert h; decide
  have h2 : c ≠ '\r' := by rintro rfl; revert h; decide
  rw [splitLines] <;> first | rfl | exact h1 | exact (fun _ hr _ => h2 hr)

theorem splitLines_single (s : Str) (h : NoLineBreak s) : splitLines s = [s] := by
  induction s with
  | nil => rfl
  | cons c t ih =>
    rw [splitLines_cons c t (h c (List.mem_cons_self _ _)),
      ih (fun d hd => h d (List.mem_cons_of_mem _ hd))]

theorem splitLines_append (a b : Str) (h : NoLineBreak a) :
    splitLines (a ++ '\n' :: b) = a :: splitLines b := by
  induction a with
  | nil => simp [splitLines]
  | cons c t ih =>
    rw [List.cons_append, splitLines_cons c _ (h c (List.mem_cons_self _ _)),
      ih (fun d hd => h d (List.mem_cons_of_mem _ hd))]

theorem joinLines_cons_cons (a b : Str) (ls : List Str) :
    joinLines (a :: b :: ls) = a ++ '\n' :: joinLines (b :: ls) := by
  simp [joinLines, List.intercalate, List.intersperse]

theorem joinLines_single (a : Str) : joinLines [a] = a := by
  simp [joinLines, List.intercalate, List.intersperse]

theorem splitLines_joinLines (l : Str) (ls : List Str) (h : ∀ x ∈ l :: ls, NoLineBreak x) :
    splitLines (joinLines (l :: ls)) = l :: ls := by
  induction ls generalizing l with
  | nil => rw [joinLines_single]; exact splitLines_single l (h l (List.mem_cons_self _ _))
  | cons b t ih =>
    rw [joinLines_cons_cons, splitLines_append _ _ (h l (List.mem_cons_self _ _)),
      ih b (fun x hx => h x (List.mem_cons_of_mem _ hx))]

/-! ## Lemmas on one line `K: V` -/

theorem keyField_ne_none_mem (k : Str) (h : keyField k ≠ none) : k ∈ recognizedKeys := by
  by_contra hk
  apply h
  simp [recognizedKeys] at hk
  simp [keyField, hk]

theorem recognizedKeys_shape :
    ∀ k ∈ recognizedKeys, trim k = k ∧ k.head?.map isJsSpace = some false := by
  decide

theorem isKeyChar_not_lineTerminator (c : Char) (h : isKeyChar c = true) :
    isLineTerminator c = false := by
  simp only [isKeyChar, Bool.or_eq_true, Bool.and_eq_true, decide_eq_true_eq, beq_iff_eq] at h
  simp only [isLineTerminator, Bool.or_eq_false_iff, beq_eq_false_iff_ne]
  omega

theorem noLineBreak_dropWhile (p : Char → Bool) (V : Str) (h : NoLineBreak V) :
    NoLineBreak (V.dropWhile p) :=
  fun c hc => h c ((List.dropWhile_sublist p).subset hc)

theorem lineMatch_keyValue (K V : Str) (hK : ∀ c ∈ K, isKeyChar c = true)
    (hf : keyField (toLowerCase K) ≠ none) (hV : NoLineBreak V) :
    lineMatch (K ++ ':' :: ' ' :: V) = some (K, V.dropWhile isJsSpace) ∧
      toLowerCase (trim K) = toLowerCase K := by
  obtain ⟨ht, hh⟩ := recognizedKeys_shape _ (keyField_ne_none_mem _ hf)
  refine ⟨?_, by rw [toLowerCase_trim, ht]⟩
  cases K with
  | nil => simp [toLowerCase] at hh
  | cons d t =>
    have hd : isJsSpace d = false := by
      simpa [toLowerCase, isJsSpace_toLowerChar] using hh
    have h := lineMatch_key d t (' ' :: V) hd hK
      (by
        intro c hc
        have hsp : isJsSpace ' ' = true := by decide
        simp only [List.dropWhile, hsp] at hc
        simp [isDotChar, noLineBreak_dropWhile _ _ hV c hc])
    have hsp : isJsSpace ' ' = true := by decide
    simpa [List.dropWhile, hsp] using h

theorem stepLine_keyValue (st : LoopState) (K V : Str) (hK : ∀ c ∈ K, isKeyChar c = true)
    (hf : keyField (toLowerCase K) ≠ none) (hV : NoLineBreak V) :
    stepLine st (K ++ ':' :: ' ' :: V) = assign st (keyField (toLowerCase K)) (trim V) := by
  obtain ⟨hm, hk⟩ := lineMatch_keyValue K V hK hf hV
  simp only [stepLine, hm, hk, trim_dropWhile]

theorem noLineBreak_keyValue (K V : Str) (hK : ∀ c ∈ K, isKeyChar c = true)
    (hV : NoLineBreak V) : NoLineBreak (K ++ ':' :: ' ' :: V) := by
  intro c hc
  simp only [List.mem_append, List.mem_cons] at hc
  rcases hc with h | rfl | rfl | h
  · exact isKeyChar_not_lineTerminator c (hK c h)
  · decide
  · decide
  · exact hV c h

theorem parse_keyValue (K V path : Str) (hK : ∀ c ∈ K, isKeyChar c = true)
    (hf : keyField (toLowerCase K) ≠ none) (hV : NoLineBreak V) :
    parseProjectTxt (K ++ ':' :: ' ' :: V) path =
      finish (assign (initState path) (keyField (toLowerCase K)) (trim V)) := by
  unfold parseProjectTxt parseLines
  rw [splitLines_single _ (noLineBreak_keyValue K V hK hV)]
  simp only [List.foldl]
  rw [stepLine_keyValue _ K V hK hf hV]

theorem keyValue_eq (K V : Str) : K ++ ": ".toList ++ V = K ++ ':' :: ' ' :: V := by
  simp

theorem recognizedKeys_lower :
    ∀ k ∈ recognizedKeys, (∀ c ∈ k, isKeyChar c = true) ∧ toLowerCase k = k := by
  decide

/-! ## Lemmas on the loop -/

theorem stepLine_noMatch_collecting (st : LoopState) (l : Str) (hl : lineMatch l = none)
    (hc : st.collectingDescription = true) :
    stepLine st l = { st with descriptionBuffer := st.descriptionBuffer ++ [l] } := by
  simp [stepLine, hl, hc]

theorem stepLine_noMatch_idle (st : LoopState) (l : Str) (hl : lineMatch l = none)
    (hc : st.collectingDescription = false) : stepLine st l = st := by
  simp [stepLine, hl, hc]

theorem foldl_collect (ls : List Str) (st : LoopState) (hc : st.collectingDescription = true)
    (hl : ∀ l ∈ ls, lineMatch l = none) :
    ls.foldl stepLine st = { st with descriptionBuffer := st.descriptionBuffer ++ ls } := by
  induction ls generalizing st with
  | nil => simp
  | cons l t ih =>
    rw [List.foldl_cons, stepLine_noMatch_collecting st l (hl l (List.mem_cons_self _ _)) hc,
      ih _ (by exact hc) (fun x hx => hl x (List.mem_cons_of_mem _ hx))]
    simp

theorem assign_data_description (st : LoopState) (f : Option Field) (v : Str) :
    (assign st f v).data.description = st.data.description := by
  unfold assign; split <;> rfl

theorem assign_data_id (st : LoopState) (f : Option Field) (v : Str) :
    (assign st f v).data.id = st.data.id := by
  unfold assign; split <;> rfl

theorem stepLine_data_description (st : LoopState) (l : Str) :
    (stepLine st l).data.description = st.data.description := by
  unfold stepLine
  split
  · exact assign_data_description _ _ _
  · split <;> rfl

theorem stepLine_data_id (st : LoopState) (l : Str) :
    (stepLine st l).data.id = st.data.id := by
  unfold stepLine
  split
  · exact assign_data_id _ _ _
  · split <;> rfl

theorem foldl_data_description (ls : List Str) (st : LoopState) :
    (ls.foldl stepLine st).data.description = st.data.description := by
  induction ls generalizing st with
  | nil => rfl
  | cons l t ih => rw [List.foldl_cons, ih, stepLine_data_description]

theorem foldl_data_id (ls : List Str) (st : LoopState) :
    (ls.foldl stepLine st).data.id = st.data.id := by
  induction ls generalizing st with
  | nil => rfl
  | cons l t ih => rw [List.foldl_cons, ih, stepLine_data_id]

theorem finish_id (st : LoopState) : (finish st).id = st.data.id := by
  unfold finish; split <;> rfl

theorem finish_description (st : LoopState) (h : st.data.description = []) :
    (finish st).description = trim (joinLines st.descriptionBuffer) := by
  unfold finish
  split
  · rfl
  · rename_i hb
    have : st.descriptionBuffer = [] := by
      simpa using hb
    rw [this, h]; rfl

theorem parseProjectTxt_id (rawText filePath : Str) :
    (parseProjectTxt rawText filePath).id = filePath := by
  unfold parseProjectTxt parseLines
  rw [finish_id, foldl_data_id]; rfl

theorem joinLines_head_nil (b : Str) (t : List Str) :
    trim (joinLines ([] :: b :: t)) ≠ joinLines ([] :: b :: t) := by
  rw [joinLines_cons_cons]
  intro h
  rcases trim_cases ([] ++ '\n' :: joinLines (b :: t)) with h1 | ⟨c, r, hc, h1⟩
  · rw [h1] at h; simp at h
  · rw [h1] at h
    simp only [List.nil_append, List.cons.injEq] at h
    rw [h.1] at hc
    revert hc; decide

theorem importWith_append {ε : Type} (parse : Str → Str → Except ε ParsedData)
    (entries : List (Str × Str)) (acc : List ProjectRecord) :
    entries.foldl (importEntry parse) acc =
      acc ++ entries.filterMap (fun e =>
        match parse e.2 e.1 with
        | .ok parsed => some (toRecord parsed)
        | .error _ => none) := by
  induction entries generalizing acc with
  | nil => simp
  | cons e t ih =>
    rw [List.foldl_cons, ih]
    unfold importEntry
    cases h : parse e.2 e.1 with
    | ok d => simp [List.filterMap_cons, h]
    | error x => simp [List.filterMap_cons, h]

theorem importProjectTexts_eq_map (entries : List (Str × Str)) :
    importProjectTexts entries = entries.map (fun e => toRecord (parseProjectTxt e.2 e.1)) := by
  unfold importProjectTexts importWith
  rw [importWith_append, List.nil_append]
  induction entries with
  | nil => rfl
  | cons e t ih =>
    rw [List.filterMap_cons, List.map_cons, ih]

theorem parse_record_lines (X U l1 path : Str) (rest : List Str)
    (hX : NoLineBreak X) (hU : NoLineBreak U) (h1 : NoLineBreak l1)
    (hrest : ∀ l ∈ rest, NoLineBreak l ∧ lineMatch l = none) :
    parseProjectTxt (recordText X l1 rest U) path =
      finish
        { data := { title := trim X, description := [], youtube := trim U, videoFile := [],
                    role := [], year := [], id := path },
          collectingDescription := false,
          descriptionBuffer := (if trim l1 = [] then [] else [trim l1]) ++ rest } := by
  have eT : "Título: ".toList ++ X = "Título".toList ++ ':' :: ' ' :: X := by simp
  have eD : "Descrição: ".toList ++ l1 = "Descrição".toList ++ ':' :: ' ' :: l1 := by simp
  have eY : "Youtube: ".toList ++ U = "Youtube".toList ++ ':' :: ' ' :: U := by simp
  have kT : ∀ c ∈ "Título".toList, isKeyChar c = true := by decide
  have kD : ∀ c ∈ "Descrição".toList, isKeyChar c = true := by decide
  have kY : ∀ c ∈ "Youtube".toList, isKeyChar c = true := by decide
  have fT : keyField (toLowerCase "Título".toList) = some .title := by decide
  have fD : keyField (toLowerCase "Descrição".toList) = some .description := by decide
  have fY : keyField (toLowerCase "Youtube".toList) = some .youtube := by decide
  unfold parseProjectTxt parseLines recordText
  rw [splitLines_joinLines]
  · rw [List.foldl_cons, List.foldl_cons, List.foldl_append, eT, eD, eY,
      stepLine_keyValue _ _ X kT (by rw [fT]; simp) hX,
      stepLine_keyValue _ _ l1 kD (by rw [fD]; simp) h1, fT, fD,
      foldl_collect rest _ rfl (fun l hl => (hrest l hl).2)]
    simp only [List.foldl_cons, List.foldl_nil]
    rw [stepLine_keyValue _ _ U kY (by rw [fY]; simp) hU, fY]
    simp [assign, initState]
  · intro x hx
    simp only [List.mem_cons, List.mem_append, List.not_mem_nil, or_false] at hx
    rcases hx with rfl | rfl | h | rfl
    · rw [eT]; exact noLineBreak_keyValue _ _ kT hX
    · rw [eD]; exact noLineBreak_keyValue _ _ kD h1
    · exact (hrest x h).1
    · rw [eY]; exact noLineBreak_keyValue _ _ kY hU

/-! ## Lemmas on description capture -/

theorem assign_idle (st : LoopState) (f : Option Field) (v : Str)
    (hf : f ≠ some Field.description) :
    (assign st f v).collectingDescription = false ∧
      (assign st f v).descriptionBuffer = st.descriptionBuffer := by
  unfold assign
  split <;> first | exact ⟨rfl, rfl⟩ | exact absurd rfl hf

theorem stepLine_idle (st : LoopState) (l : Str) (hc : st.collectingDescription = false)
    (hl : lineField l ≠ some Field.description) :
    (stepLine st l).collectingDescription = false ∧
      (stepLine st l).descriptionBuffer = st.descriptionBuffer := by
  unfold lineField at hl
  unfold stepLine
  cases hm : lineMatch l with
  | none => simp [hc]
  | some m =>
    rw [hm] at hl
    exact assign_idle _ _ _ hl

theorem foldl_idle (ls : List Str) (st : LoopState) (hc : st.collectingDescription = false)
    (hl : ∀ l ∈ ls, lineField l ≠ some Field.description) :
    (ls.foldl stepLine st).collectingDescription = false ∧
      (ls.foldl stepLine st).descriptionBuffer = st.descriptionBuffer := by
  induction ls generalizing st with
  | nil => exact ⟨hc, rfl⟩
  | cons l t ih =>
    obtain ⟨h1, h2⟩ := stepLine_idle st l hc (hl l (List.mem_cons_self _ _))
    obtain ⟨h3, h4⟩ := ih (stepLine st l) h1 (fun x hx => hl x (List.mem_cons_of_mem _ hx))
    exact ⟨h3, h4.trans h2⟩

theorem stepLine_key_idle (st : LoopState) (k : Str) (f : Field) (hk : lineField k = some f)
    (hf : f ≠ Field.description) : (stepLine st k).collectingDescription = false := by
  cases hm : lineMatch k with
  | none => simp [lineField, hm] at hk
  | some m =>
    simp only [lineField, hm] at hk
    simp only [stepLine, hm, hk]
    exact (assign_idle st (some f) _ (by simpa using hf)).1

theorem foldl_capture (ls : List Str) (st : LoopState) (hc : st.collectingDescription = true)
    (hl : ∀ l ∈ ls, lineField l = none) :
    (ls.foldl stepLine st).descriptionBuffer =
      st.descriptionBuffer ++ ls.takeWhile (fun l => (lineMatch l).isNone) := by
  induction ls generalizing st with
  | nil => simp
  | cons l t ih =>
    have hl1 := hl l (List.mem_cons_self _ _)
    have hl2 : ∀ x ∈ t, lineField x = none := fun x hx => hl x (List.mem_cons_of_mem _ hx)
    rw [List.foldl_cons]
    cases hm : lineMatch l with
    | none =>
      rw [stepLine_noMatch_collecting st l hm hc, ih _ (by exact hc) hl2]
      simp [List.takeWhile, hm]
    | some m =>
      have hidle := stepLine_idle { st with collectingDescription := false } l rfl
        (by rw [hl1]; simp)
      have hstep : stepLine st l = stepLine { st with collectingDescription := false } l := by
        unfold lineField at hl1
        rw [hm] at hl1
        simp only [stepLine, hm, hl1]
        rfl
      rw [hstep]
      rw [(foldl_idle t _ hidle.1 (fun x hx => by rw [hl2 x hx]; simp)).2, hidle.2]
      simp [List.takeWhile, hm]

/-! ## Lemmas on the record as a whole -/

theorem assign_withId (st : LoopState) (f : Option Field) (v p : Str) :
    assign (withId st p) f v = withId (assign st f v) p := by
  unfold assign withId; split <;> rfl

theorem stepLine_withId (st : LoopState) (l p : Str) :
    stepLine (withId st p) l = withId (stepLine st l) p := by
  unfold stepLine
  split
  · exact assign_withId _ _ _ _
  · show (if st.collectingDescription = true then _ else _) = _
    split <;> rfl

theorem foldl_withId (ls : List Str) (st : LoopState) (p : Str) :
    ls.foldl stepLine (withId st p) = withId (ls.foldl stepLine st) p := by
  induction ls generalizing st with
  | nil => rfl
  | cons l t ih => rw [List.foldl_cons, List.foldl_cons, stepLine_withId, ih]

theorem finish_withId (st : LoopState) (p : Str) :
    finish (withId st p) = { finish st with id := p } := by
  unfold finish
  show (if st.descriptionBuffer.length ≠ 0 then _ else _) = _
  split <;> rfl

theorem parseProjectTxt_path (text path path2 : Str) :
    parseProjectTxt text path2 = { parseProjectTxt text path with id := path2 } := by
  unfold parseProjectTxt parseLines
  rw [← finish_withId, ← foldl_withId]
  rfl

theorem stepLine_title (st : LoopState) (l : Str) :
    (stepLine st l).data.title = (fieldValue Field.title l).getD st.data.title := by
  unfold stepLine fieldValue
  cases hm : lineMatch l with
  | none => simp only []; split <;> rfl
  | some m =>
    simp only []
    cases hk : keyField (toLowerCase (trim m.1)) with
    | none => rfl
    | some f => cases f <;> rfl

theorem foldl_title (ls : List Str) (st : LoopState) :
    (ls.foldl stepLine st).data.title =
      (fieldValues Field.title ls).getLast?.getD st.data.title := by
  induction ls generalizing st with
  | nil => rfl
  | cons l t ih =>
    rw [List.foldl_cons, ih, stepLine_title]
    unfold fieldValues
    rw [List.filterMap_cons]
    cases fieldValue Field.title l with
    | none => rfl
    | some v =>
      simp only [Option.getD_some]
      rw [List.getLast?_cons]
      rfl

theorem finish_title (st : LoopState) : (finish st).title = st.data.title := by
  unfold finish; split <;> rfl

theorem parseProjectTxt_title (rawText filePath : Str) :
    (parseProjectTxt rawText filePath).title =
      (fieldValues Field.title (splitLines rawText)).getLast?.getD [] := by
  unfold parseProjectTxt parseLines
  rw [finish_title, foldl_title]
  rfl

/-! ## Lemmas on `categorizeImage` -/

theorem isDigit_iff (c : Char) : c.isDigit = true ↔ 0x30 ≤ c.toNat ∧ c.toNat ≤ 0x39 := by
  simp only [Char.isDigit, Bool.and_eq_true, decide_eq_true_eq, ge_iff_le, UInt32.le_def,
    BitVec.le_def, Char.toNat, UInt32.toNat]
  rfl

theorem digitValue_digit (c : Char) (h : c.isDigit = true) :
    digitValue c = some (c.toNat - 48) := by
  rw [isDigit_iff] at h
  simp [digitValue, h]

theorem isRadixDigit_digit (c : Char) (h : c.isDigit = true) : isRadixDigit 10 c = true := by
  have h2 := (isDigit_iff c).mp h
  simp only [isRadixDigit, digitValue_digit c h, decide_eq_true_eq]
  omega

theorem digitsValue_digits (ds : Str) (hd : ∀ c ∈ ds, c.isDigit = true) :
    digitsValue 10 ds = Nat.ofDigits 10 (ds.reverse.map (fun c => c.toNat - 48)) := by
  induction ds using List.reverseRecOn with
  | nil => rfl
  | append_singleton l c ih =>
    have hc := digitValue_digit c (hd c (by simp))
    have ih2 := ih (fun d hd2 => hd d (by simp [hd2]))
    unfold digitsValue at ih2 ⊢
    rw [List.foldl_append, List.foldl_cons, List.foldl_nil, ih2, hc, List.reverse_append,
      List.reverse_singleton, List.singleton_append, List.map_cons, Nat.ofDigits_cons]
    simp only [Option.getD_some, Nat.cast_id]
    ring

theorem splitOn_single (sep : Char) (s : Str) (h : sep ∉ s) : splitOn sep s = [s] := by
  induction s with
  | nil => rfl
  | cons c t ih =>
    have hc : c ≠ sep := fun e => h (by simp [e])
    simp [splitOn, hc, ih (fun hm => h (List.mem_cons_of_mem _ hm))]

theorem digit_facts (c : Char) (h : c.isDigit = true) :
    isJsSpace c = false ∧ c ≠ '-' ∧ c ≠ '+' ∧ c ≠ 'x' ∧ c ≠ 'X' := by
  rw [isDigit_iff] at h
  refine ⟨?_, ?_, ?_, ?_, ?_⟩
  · simp only [isJsSpace, Bool.or_eq_false_iff, Bool.and_eq_false_iff, beq_eq_false_iff_ne,
      decide_eq_false_iff_not]
    omega
  all_goals
    rintro rfl
    revert h
    decide

theorem parseInt_digits (ds : Str) (hne : ds ≠ []) (hd : ∀ c ∈ ds, c.isDigit = true) :
    parseInt (some ds) = some (digitsValue 10 ds : Int) := by
  have htake : ds.takeWhile (isRadixDigit 10) = ds :=
    List.takeWhile_eq_self_iff.mpr (fun c hc => isRadixDigit_digit c (hd c hc))
  cases ds with
  | nil => exact absurd rfl hne
  | cons c t =>
    obtain ⟨hs, hm, hp, _, _⟩ := digit_facts c (hd c (List.mem_cons_self _ _))
    have hdrop : (c :: t).dropWhile isJsSpace = c :: t := by simp [List.dropWhile, hs]
    unfold parseInt
    simp only [hdrop]
    have hsign : readSign (c :: t) = (1, c :: t) := by
      unfold readSign
      split
      · rename_i heq; exact absurd (List.cons.inj heq).1 hm
      · rename_i heq; exact absurd (List.cons.inj heq).1 hp
      · rfl
    have hbase : readRadix (c :: t) = (10, c :: t) := by
      unfold readRadix
      split
      · rename_i heq
        have h2 := (List.cons.inj heq).2
        subst h2
        exact absurd rfl (digit_facts 'x' (hd 'x' (by simp))).2.2.2.1
      · rename_i heq
        have h2 := (List.cons.inj heq).2
        subst h2
        exact absurd rfl (digit_facts 'X' (hd 'X' (by simp))).2.2.2.2
      · rfl
    simp only [hsign, hbase, htake]
    simp

theorem categorizeImage_numbered (ds : Str) (hne : ds ≠ []) (hd : ∀ c ∈ ds, c.isDigit = true) :
    categorizeImage ("RIK-".toList ++ ds) =
      if (digitsValue 10 ds : Int) ∈
          ([4487, 4501, 4504, 4508, 6640, 6663, 6672, 6682, 6715] : List Int) then
        "eventos".toList
      else if (digitsValue 10 ds : Int) ∈ ([4512, 4513, 4515] : List Int) then "grupos".toList
      else if (digitsValue 10 ds : Int) ∈ ([3694, 6631, 6696] : List Int) then
        "paisagens".toList
      else "retratos".toList := by
  have hno : '-' ∉ ds := fun hm => (digit_facts _ (hd _ hm)).2.1 rfl
  have hsplit : (splitOn '-' ("RIK-".toList ++ ds))[1]? = some ds := by
    show (splitOn '-' ('R' :: 'I' :: 'K' :: '-' :: ds))[1]? = some ds
    have h1 : 'R' ≠ '-' := by decide
    have h2 : 'I' ≠ '-' := by decide
    have h3 : 'K' ≠ '-' := by decide
    simp [splitOn, h1, h2, h3, splitOn_single _ _ hno]
  have hpre1 : "IMG_".toList.isPrefixOf ("RIK-".toList ++ ds) = false := by
    show ['I', 'M', 'G', '_'].isPrefixOf ('R' :: 'I' :: 'K' :: '-' :: ds) = false
    simp [List.isPrefixOf]
  have hpre2 : "RIK-".toList.isPrefixOf ("RIK-".toList ++ ds) = true := by
    show ['R', 'I', 'K', '-'].isPrefixOf ('R' :: 'I' :: 'K' :: '-' :: ds) = true
    simp [List.isPrefixOf]
  unfold categorizeImage
  simp only [hpre1, hpre2, hsplit, parseInt_digits ds hne hd, includes]
  simp

/-! ## More lemmas on `categorizeImage` -/

theorem isPrefixOf_append (p s : Str) : p.isPrefixOf (p ++ s) = true := by
  induction p with
  | nil => simp [List.isPrefixOf]
  | cons c t ih => simp [List.isPrefixOf, ih]

theorem rik_not_img (name : Str) (h : "RIK-".toList.isPrefixOf name = true) :
    "IMG_".toList.isPrefixOf name = false := by
  cases name with
  | nil => simp [List.isPrefixOf] at h
  | cons c t =>
    have hc : c = 'R' := by
      have h2 : ['R', 'I', 'K', '-'].isPrefixOf (c :: t) = true := h
      simp only [List.isPrefixOf, Bool.and_eq_true, beq_iff_eq] at h2
      exact h2.1.symm
    subst hc
    show ['I', 'M', 'G', '_'].isPrefixOf ('R' :: t) = false
    simp [List.isPrefixOf]

theorem categorizeImage_rik (name : Str) (h : "RIK-".toList.isPrefixOf name = true) :
    categorizeImage name = firstTest numberTests (parseInt ((splitOn '-' name)[1]?)) := by
  unfold categorizeImage
  simp only [rik_not_img name h, h, firstTest, numberTests]
  simp

theorem categorizeImage_other (name : Str) (h1 : "IMG_".toList.isPrefixOf name = false)
    (h2 : "RIK-".toList.isPrefixOf name = false) : categorizeImage name = "retratos".toList := by
  unfold categorizeImage
  rw [if_neg (by rw [h1]; simp), if_neg (by rw [h2]; simp)]

theorem firstTest_none (tests : List (List Int × Str)) (number : Option Int)
    (h : ∀ t ∈ tests, includes t.1 number = false) :
    firstTest tests number = "retratos".toList := by
  induction tests with
  | nil => rfl
  | cons t rest ih =>
    simp only [firstTest, h t (List.mem_cons_self _ _)]
    exact ih (fun x hx => h x (List.mem_cons_of_mem _ hx))

/-! ## Lemmas on the membership tests -/

theorem firstTest_of_mem (tests : List (List Int × Str)) (number : Option Int)
    (hd : tests.Pairwise (fun s t => ∀ n ∈ s.1, n ∉ t.1)) (t : List Int × Str)
    (ht : t ∈ tests) (hin : includes t.1 number = true) : firstTest tests number = t.2 := by
  induction tests with
  | nil => cases ht
  | cons x rest ih =>
    rw [List.pairwise_cons] at hd
    rcases List.mem_cons.mp ht with rfl | hr
    · simp [firstTest, hin]
    · have hx : includes x.1 number = false := by
        cases number with
        | none => rfl
        | some n =>
          simp only [includes, decide_eq_true_eq] at hin
          simp only [includes, decide_eq_false_iff_not]
          exact fun hxn => hd.1 t hr n hxn hin
      simp only [firstTest, hx]
      exact ih hd.2 hr

theorem numberTests_disjoint :
    numberTests.Pairwise (fun s t => ∀ n ∈ s.1, n ∉ t.1) := by
  decide

theorem firstTest_perm (tests : List (List Int × Str)) (hp : tests.Perm numberTests)
    (number : Option Int) : firstTest tests number = firstTest numberTests number := by
  have hd : tests.Pairwise (fun s t => ∀ n ∈ s.1, n ∉ t.1) :=
    hp.symm.pairwise numberTests_disjoint (fun {s t} h n hn hs => h n hs hn)
  by_cases hex : ∃ t ∈ numberTests, includes t.1 number = true
  · obtain ⟨t, ht, hin⟩ := hex
    rw [firstTest_of_mem tests number hd t (hp.symm.subset ht) hin,
      firstTest_of_mem numberTests number numberTests_disjoint t ht hin]
  · have hnone : ∀ t ∈ numberTests, includes t.1 number = false := by
      intro t ht
      by_contra h
      exact hex ⟨t, ht, by simpa using h⟩
    rw [firstTest_none numberTests number hnone,
      firstTest_none tests number (fun t ht => hnone t (hp.subset ht))]

/-! ## Lemmas on sorting -/

theorem pairwise_orderedInsert {α : Type} (r : α → α → Prop) [DecidableRel r] (a : α)
    (l : List α) (htot : ∀ b ∈ l, r a b ∨ r b a)
    (htrans : ∀ b ∈ l, ∀ c ∈ l, r a b → r b c → r a c) (hl : l.Pairwise r) :
    (l.orderedInsert r a).Pairwise r := by
  induction l with
  | nil => simp
  | cons b t ih =>
    rw [List.pairwise_cons] at hl
    by_cases hab : r a b
    · rw [List.orderedInsert, if_pos hab, List.pairwise_cons]
      refine ⟨?_, List.pairwise_cons.mpr hl⟩
      intro c hc
      rcases List.mem_cons.mp hc with rfl | hct
      · exact hab
      · exact htrans b (List.mem_cons_self _ _) c (List.mem_cons_of_mem _ hct) hab (hl.1 c hct)
    · rw [List.orderedInsert, if_neg hab, List.pairwise_cons]
      have hba : r b a := (htot b (List.mem_cons_self _ _)).resolve_left hab
      refine ⟨?_, ih (fun c hc => htot c (List.mem_cons_of_mem _ hc))
        (fun c hc d hd => htrans c (List.mem_cons_of_mem _ hc) d (List.mem_cons_of_mem _ hd))
        hl.2⟩
      intro c hc
      rcases (List.mem_orderedInsert r).mp hc with rfl | hct
      · exact hba
      · exact hl.1 c hct

theorem pairwise_insertionSort {α : Type} (r : α → α → Prop) [DecidableRel r] (l : List α)
    (htot : ∀ a ∈ l, ∀ b ∈ l, r a b ∨ r b a)
    (htrans : ∀ a ∈ l, ∀ b ∈ l, ∀ c ∈ l, r a b → r b c → r a c) :
    (l.insertionSort r).Pairwise r := by
  induction l with
  | nil => simp
  | cons a t ih =>
    rw [List.insertionSort]
    have hm : ∀ x, x ∈ t.insertionSort r → x ∈ a :: t :=
      fun x hx => List.mem_cons_of_mem _ ((List.mem_insertionSort r).mp hx)
    apply pairwise_orderedInsert
    · exact fun b hb => htot a (List.mem_cons_self _ _) b (hm b hb)
    · exact fun b hb c hc => htrans a (List.mem_cons_self _ _) b (hm b hb) c (hm c hc)
    · exact ih (fun x hx y hy => htot x (List.mem_cons_of_mem _ hx) y (List.mem_cons_of_mem _ hy))
        (fun x hx y hy z hz => htrans x (List.mem_cons_of_mem _ hx) y
          (List.mem_cons_of_mem _ hy) z (List.mem_cons_of_mem _ hz))

theorem eq_of_perm_of_pairwise {α : Type} (r : α → α → Prop) (l₁ l₂ : List α)
    (hp : l₁.Perm l₂) (h₁ : l₁.Pairwise r) (h₂ : l₂.Pairwise r)
    (hanti : ∀ a ∈ l₁, ∀ b ∈ l₁, r a b → r b a → a = b) : l₁ = l₂ := by
  induction l₁ generalizing l₂ with
  | nil => exact hp.nil_eq
  | cons a t ih =>
    cases l₂ with
    | nil => exact absurd hp.symm.nil_eq (by simp)
    | cons b t₂ =>
      rw [List.pairwise_cons] at h₁ h₂
      have hab : a = b := by
        by_contra hne
        have hb : b ∈ a :: t := hp.symm.subset (List.mem_cons_self _ _)
        have ha : a ∈ b :: t₂ := hp.subset (List.mem_cons_self _ _)
        have hbt : b ∈ t := (List.mem_cons.mp hb).resolve_left (fun e => hne e.symm)
        have hat : a ∈ t₂ := (List.mem_cons.mp ha).resolve_left hne
        exact hne (hanti a (List.mem_cons_self _ _) b hb (h₁.1 b hbt) (h₂.1 a hat))
      subst hab
      rw [ih t₂ (List.perm_cons a |>.mp hp) h₁.2 h₂.2
        (fun x hx y hy => hanti x (List.mem_cons_of_mem _ hx) y (List.mem_cons_of_mem _ hy))]

/-! ## Lemmas on the gallery -/

theorem foldl_galleryEntry (allImages : List (Str × Str)) (acc : List GalleryImage) :
    allImages.foldl galleryEntry acc =
      acc ++ (allImages.filter (fun e => e.1 ≠ "IMG_9998".toList)).map toGalleryImage := by
  induction allImages generalizing acc with
  | nil => simp
  | cons e t ih =>
    rw [List.foldl_cons, ih]
    by_cases he : e.1 = "IMG_9998".toList
    · have hf : decide (e.1 ≠ "IMG_9998".toList) = false := decide_eq_false (not_not.mpr he)
      simp only [galleryEntry, if_pos he, List.filter_cons, hf, Bool.false_eq_true, if_false]
    · have hf : decide (e.1 ≠ "IMG_9998".toList) = true := decide_eq_true he
      simp only [galleryEntry, if_neg he, List.filter_cons, hf, if_true, List.map_cons,
        List.append_assoc, toGalleryImage, List.singleton_append]

theorem categorizeImage_mem (imageName : Str) : categorizeImage imageName ∈ categoryOrder := by
  unfold categorizeImage categoryOrder
  simp only
  split_ifs <;> simp

theorem indexOf_categoryOrder_inj :
    ∀ c ∈ categoryOrder, ∀ d ∈ categoryOrder,
      indexOf categoryOrder c = indexOf categoryOrder d → c = d := by
  decide

theorem compareImages_le_iff (cmp : Str → Str → Int) (a b : GalleryImage)
    (ha : a.category ∈ categoryOrder) (hb : b.category ∈ categoryOrder) :
    compareImages cmp a b ≤ 0 ↔
      indexOf categoryOrder a.category < indexOf categoryOrder b.category ∨
        (a.category = b.category ∧ cmp a.name b.name ≤ 0) := by
  unfold compareImages
  by_cases hc : a.category = b.category
  · simp [hc]
  · have hne : indexOf categoryOrder a.category ≠ indexOf categoryOrder b.category :=
      fun h => hc (indexOf_categoryOrder_inj _ ha _ hb h)
    simp only [ne_eq, hc, not_false_eq_true, if_true, false_and, or_false]
    omega

theorem mem_gallery (cmp : Str → Str → Int) (allImages : List (Str × Str)) (g : GalleryImage) :
    g ∈ generateGalleryImages cmp allImages ↔
      ∃ e ∈ allImages, e.1 ≠ "IMG_9998".toList ∧ g = toGalleryImage e := by
  unfold generateGalleryImages sortBy
  rw [List.mem_insertionSort, foldl_galleryEntry, List.nil_append, List.mem_map]
  constructor
  · rintro ⟨e, he, rfl⟩
    rw [List.mem_filter] at he
    exact ⟨e, he.1, by simpa using he.2, rfl⟩
  · rintro ⟨e, he, hne, rfl⟩
    exact ⟨e, List.mem_filter.mpr ⟨he, by simpa using hne⟩, rfl⟩

theorem consistent_total (cmp : Str → Str → Int) (hc : ConsistentComparator cmp) (a b : Str) :
    cmp a b ≤ 0 ∨ cmp b a ≤ 0 := by
  by_cases h : cmp a b ≤ 0
  · exact Or.inl h
  · exact Or.inr (le_of_lt ((hc.1 b a).mpr (not_le.mp h)))

theorem consistent_zero (cmp : Str → Str → Int) (hc : ConsistentComparator cmp) (a b : Str)
    (h1 : cmp a b ≤ 0) (h2 : cmp b a ≤ 0) : cmp a b = 0 := by
  by_contra hne
  have hlt : cmp a b < 0 := lt_of_le_of_ne h1 hne
  have := (hc.1 a b).mp hlt
  omega

theorem gallery_pairwise (cmp : Str → Str → Int) (hc : ConsistentComparator cmp)
    (allImages : List (Str × Str)) :
    (generateGalleryImages cmp allImages).Pairwise (fun a b => compareImages cmp a b ≤ 0) := by
  unfold generateGalleryImages sortBy
  have hvalid : ∀ g ∈ allImages.foldl galleryEntry [], g.category ∈ categoryOrder := by
    intro g hg
    rw [foldl_galleryEntry, List.nil_append, List.mem_map] at hg
    obtain ⟨e, _, rfl⟩ := hg
    exact categorizeImage_mem e.1
  apply pairwise_insertionSort
  · intro a ha b hb
    rw [compareImages_le_iff cmp a b (hvalid a ha) (hvalid b hb),
      compareImages_le_iff cmp b a (hvalid b hb) (hvalid a ha)]
    by_cases hcat : a.category = b.category
    · rcases consistent_total cmp hc a.name b.name with h | h
      · exact Or.inl (Or.inr ⟨hcat, h⟩)
      · exact Or.inr (Or.inr ⟨hcat.symm, h⟩)
    · have hne : indexOf categoryOrder a.category ≠ indexOf categoryOrder b.category :=
        fun h => hcat (indexOf_categoryOrder_inj _ (hvalid a ha) _ (hvalid b hb) h)
      rcases lt_or_gt_of_ne hne with h | h
      · exact Or.inl (Or.inl h)
      · exact Or.inr (Or.inl h)
  · intro a ha b hb c hcm hab hbc
    rw [compareImages_le_iff cmp a b (hvalid a ha) (hvalid b hb)] at hab
    rw [compareImages_le_iff cmp b c (hvalid b hb) (hvalid c hcm)] at hbc
    rw [compareImages_le_iff cmp a c (hvalid a ha) (hvalid c hcm)]
    rcases hab with h1 | ⟨e1, h1⟩ <;> rcases hbc with h2 | ⟨e2, h2⟩
    · exact Or.inl (lt_trans h1 h2)
    · exact Or.inl (by rw [← e2]; exact h1)
    · exact Or.inl (by rw [e1]; exact h2)
    · exact Or.inr ⟨e1.trans e2, hc.2 _ _ _ h1 h2⟩

/-! ## Lemmas on the comparison functions of the instances -/

theorem codePointCompare_symm (a b : Str) :
    codePointCompare a b < 0 ↔ 0 < codePointCompare b a := by
  induction a generalizing b with
  | nil => cases b <;> simp [codePointCompare]
  | cons x s ih =>
    cases b with
    | nil => simp [codePointCompare]
    | cons y t =>
      simp only [codePointCompare]
      have := ih t
      split_ifs <;> omega

theorem codePointCompare_trans (a b c : Str) (h1 : codePointCompare a b ≤ 0)
    (h2 : codePointCompare b c ≤ 0) : codePointCompare a c ≤ 0 := by
  induction a generalizing b c with
  | nil => cases c <;> simp [codePointCompare]
  | cons x s ih =>
    cases b with
    | nil => simp [codePointCompare] at h1
    | cons y t =>
      cases c with
      | nil => simp [codePointCompare] at h2
      | cons z u =>
        simp only [codePointCompare] at h1 h2 ⊢
        have := ih t u
        split_ifs at h1 h2 ⊢ <;> omega

theorem codePointCompare_consistent : ConsistentComparator codePointCompare :=
  ⟨codePointCompare_symm, codePointCompare_trans⟩

theorem canonicalCompare_consistent : ConsistentComparator canonicalCompare :=
  ⟨fun _ _ => codePointCompare_symm _ _, fun _ _ _ => codePointCompare_trans _ _ _⟩

theorem gallery_perm (cmp : Str → Str → Int) (allImages : List (Str × Str)) :
    (generateGalleryImages cmp allImages).Perm
      ((allImages.filter (fun e => e.1 ≠ "IMG_9998".toList)).map toGalleryImage) := by
  unfold generateGalleryImages sortBy
  rw [foldl_galleryEntry, List.nil_append]
  exact List.perm_insertionSort _ _

/-! ## Lemmas on pagination -/

theorem slice_nat {α : Type} (xs : List α) (a b : Nat) (h : a ≤ b) :
    slice xs (a : Int) (b : Int) = (xs.drop a).take (b - a) := by
  unfold slice
  have h1 : ¬ ((a : Int) < 0) := by omega
  have h2 : ¬ ((b : Int) < 0) := by omega
  simp only [h1, h2, if_false]
  by_cases ha : a ≤ xs.length
  · have e1 : (min (a : Int) (xs.length : Int)).toNat = a := by omega
    by_cases hb : b ≤ xs.length
    · have e2 : (min (b : Int) (xs.length : Int) - min (a : Int) (xs.length : Int)).toNat
          = b - a := by omega
      rw [e1, e2]
    · have e2 : (min (b : Int) (xs.length : Int) - min (a : Int) (xs.length : Int)).toNat
          = xs.length - a := by omega
      rw [e1, e2, List.take_of_length_le (by simp), List.take_of_length_le (by simp; omega)]
  · have e1 : (min (a : Int) (xs.length : Int)).toNat = xs.length := by omega
    rw [e1, List.drop_of_length_le (le_refl _), List.drop_of_length_le (by omega)]
    simp

theorem currentImages_page {α : Type} (galleryImages : List α) (j : Nat) :
    currentImages galleryImages ((j : Int) + 1) = (galleryImages.drop (12 * j)).take 12 := by
  unfold currentImages imagesPerPage
  have e1 : ((j : Int) + 1) * ((12 : Nat) : Int) = ((12 * j + 12 : Nat) : Int) := by
    push_cast; ring
  have e2 : ((12 * j + 12 : Nat) : Int) - ((12 : Nat) : Int) = ((12 * j : Nat) : Int) := by
    push_cast; ring
  simp only [e1, e2]
  rw [slice_nat _ _ _ (by omega)]
  congr 1
  omega

theorem totalPages_ceil (n : Nat) : (totalPages n : Int) = ⌈(n : ℚ) / 12⌉ := by
  symm
  rw [Int.ceil_eq_iff]
  unfold totalPages imagesPerPage
  have h1 : 12 * ((n + (12 - 1)) / 12) < n + 12 := by omega
  have h2 : n ≤ 12 * ((n + (12 - 1)) / 12) := by omega
  have h1q : (12 : ℚ) * (((n + (12 - 1)) / 12 : Nat) : ℚ) < (n : ℚ) + 12 := by exact_mod_cast h1
  have h2q : (n : ℚ) ≤ 12 * (((n + (12 - 1)) / 12 : Nat) : ℚ) := by exact_mod_cast h2
  constructor
  · rw [Int.cast_natCast, lt_div_iff₀ (by norm_num)]
    linarith
  · rw [Int.cast_natCast, div_le_iff₀ (by norm_num)]
    linarith

/-! ## Lemmas on `getYouTubeId` -/

theorem idChars_ne (id : Str) (hid : IdChars id) (x : Char) (hx : x.isAlphanum = false)
    (h1 : x ≠ '-') (h2 : x ≠ '_') : x ∉ id := by
  intro hm
  rcases hid x hm with h | h | h
  · rw [hx] at h; cases h
  · exact h1 h
  · exact h2 h

theorem segmentAfterMarker_shape (marker id : Str)
    (hm : marker = "shorts".toList ∨ marker = "embed".toList) (hs : '/' ∉ id) :
    segmentAfterMarker (splitOn '/' ('/' :: marker ++ '/' :: id)) = id := by
  have hsplit : splitOn '/' ('/' :: marker ++ '/' :: id) = [[], marker, id] := by
    rcases hm with rfl | rfl <;> simp [splitOn, splitOn_single _ _ hs]
  rw [hsplit]
  rcases hm with rfl | rfl <;> simp [segmentAfterMarker, List.findIdx?]

theorem plainHttpsUrl_shapes (id : Str) (hid : IdChars id) :
    ParsesYouTubeShapes plainHttpsUrl id := by
  have hq : '?' ∉ id := idChars_ne id hid '?' (by decide) (by decide) (by decide)
  have hh : '#' ∉ id := idChars_ne id hid '#' (by decide) (by decide) (by decide)
  have ha : '&' ∉ id := idChars_ne id hid '&' (by decide) (by decide) (by decide)
  have he : '=' ∉ id := idChars_ne id hid '=' (by decide) (by decide) (by decide)
  have hall : ∀ x ∈ id, ¬x = '?' ∧ ¬x = '#' :=
    fun c hc => ⟨fun e => hq (e ▸ hc), fun e => hh (e ▸ hc)⟩
  have d1 : id.dropWhile (fun c => !decide (c = '?') && !decide (c = '#')) = [] :=
    List.dropWhile_eq_nil_iff.mpr (fun c hc => by simp [hall c hc])
  have t2 : id.takeWhile (fun c => !decide (c = '#')) = id :=
    List.takeWhile_eq_self_iff.mpr (fun c hc => by simp [(hall c hc).2])
  have t3 : id.takeWhile (fun c => !decide (c = '=')) = id :=
    List.takeWhile_eq_self_iff.mpr (fun c hc => by
      have : c ≠ '=' := fun e => he (e ▸ hc)
      simp [this])
  refine ⟨?_, ?_, ?_, ?_⟩
  · simp [plainHttpsUrl, List.isPrefixOf, List.takeWhile, List.dropWhile, d1]
    exact hall
  · simp [plainHttpsUrl, List.isPrefixOf, List.takeWhile, List.dropWhile, t2, plainQueryPairs,
      splitOn, splitOn_single _ _ ha]
  · simp [plainHttpsUrl, List.isPrefixOf, List.takeWhile, List.dropWhile, d1]
    exact hall
  · simp [plainHttpsUrl, List.isPrefixOf, List.takeWhile, List.dropWhile, d1]
    exact hall

/-! ## More lemmas on the loop -/

theorem stepLine_unrecognized (st : LoopState) (l : Str) (hl : lineField l = none)
    (hc : st.collectingDescription = false) : stepLine st l = st := by
  cases hm : lineMatch l with
  | none => exact stepLine_noMatch_idle st l hm hc
  | some m =>
    simp only [lineField, hm] at hl
    simp only [stepLine, hm, hl, assign]
    cases st
    simp_all

theorem foldl_unrecognized (ls : List Str) (st : LoopState)
    (hl : ∀ l ∈ ls, lineField l = none) (hc : st.collectingDescription = false) :
    ls.foldl stepLine st = st := by
  induction ls with
  | nil => rfl
  | cons l t ih =>
    rw [List.foldl_cons, stepLine_unrecognized st l (hl l (List.mem_cons_self _ _)) hc]
    exact ih (fun x hx => hl x (List.mem_cons_of_mem _ hx))

theorem foldl_capture_last (ls : List Str) (st : LoopState)
    (hc : st.collectingDescription = true)
    (hl : ∀ l ∈ ls, lineField l ≠ some Field.description) :
    (ls.foldl stepLine st).descriptionBuffer =
      st.descriptionBuffer ++ ls.takeWhile (fun l => (lineMatch l).isNone) := by
  induction ls generalizing st with
  | nil => simp
  | cons l t ih =>
    have hl1 := hl l (List.mem_cons_self _ _)
    have hl2 : ∀ x ∈ t, lineField x ≠ some Field.description :=
      fun x hx => hl x (List.mem_cons_of_mem _ hx)
    rw [List.foldl_cons]
    cases hm : lineMatch l with
    | none =>
      rw [stepLine_noMatch_collecting st l hm hc, ih _ (by exact hc) hl2]
      simp [List.takeWhile, hm]
    | some m =>
      simp only [lineField, hm] at hl1
      have hidle := assign_idle st (keyField (toLowerCase (trim m.1))) (trim m.2) hl1
      have hstep : stepLine st l = assign st (keyField (toLowerCase (trim m.1))) (trim m.2) := by
        simp only [stepLine, hm]
      rw [hstep, (foldl_idle t _ hidle.1 hl2).2, hidle.2]
      simp [List.takeWhile, hm]

theorem stepLine_description_line (d : Str)
    (hd : lineField d = some Field.description) :
    ∃ buffer, ∀ st2 : LoopState, (stepLine st2 d).collectingDescription = true ∧
      (stepLine st2 d).descriptionBuffer = buffer := by
  cases hm : lineMatch d with
  | none => simp [lineField, hm] at hd
  | some m =>
    simp only [lineField, hm] at hd
    exact ⟨if trim m.2 = [] then [] else [trim m.2], fun st2 => by
      simp only [stepLine, hm, hd, assign, and_self]⟩

theorem stepLine_capture_congr (st1 st2 : LoopState) (l : Str)
    (hc : st1.collectingDescription = st2.collectingDescription)
    (hb : st1.descriptionBuffer = st2.descriptionBuffer) :
    (stepLine st1 l).collectingDescription = (stepLine st2 l).collectingDescription ∧
      (stepLine st1 l).descriptionBuffer = (stepLine st2 l).descriptionBuffer := by
  unfold stepLine
  cases lineMatch l with
  | none =>
    by_cases h2 : st2.collectingDescription = true
    · have h1 : st1.collectingDescription = true := hc.trans h2
      simp only [h1, h2, if_true, hb, and_self]
    · have h1 : ¬ st1.collectingDescription = true := fun h => h2 (hc ▸ h)
      simp only [h1, h2, if_false]
      exact ⟨hc, hb⟩
  | some m =>
    simp only [assign]
    split <;> exact ⟨rfl, by first | rfl | exact hb⟩

theorem foldl_capture_congr (ls : List Str) (st1 st2 : LoopState)
    (hc : st1.collectingDescription = st2.collectingDescription)
    (hb : st1.descriptionBuffer = st2.descriptionBuffer) :
    (ls.foldl stepLine st1).descriptionBuffer = (ls.foldl stepLine st2).descriptionBuffer := by
  induction ls generalizing st1 st2 with
  | nil => exact hb
  | cons l t ih =>
    obtain ⟨h1, h2⟩ := stepLine_capture_congr st1 st2 l hc hb
    exact ih _ _ h1 h2

theorem parseLines_description (lines : List Str) (path : Str) :
    (parseLines lines path).description =
      trim (joinLines (lines.foldl stepLine (initState path)).descriptionBuffer) := by
  unfold parseLines
  exact finish_description _ (by rw [foldl_data_description]; rfl)

theorem assign_getField (st : LoopState) (fo : Option Field) (v : Str) (f : Field)
    (hf : f ≠ Field.description) :
    getField f (assign st fo v).data = if fo = some f then v else getField f st.data := by
  cases fo with
  | none => simp [assign]
  | some g => cases g <;> cases f <;> simp [assign, getField] at hf ⊢

theorem stepLine_getField (st : LoopState) (l : Str) (f : Field)
    (hf : f ≠ Field.description) :
    getField f (stepLine st l).data = (fieldValue f l).getD (getField f st.data) := by
  unfold stepLine fieldValue
  cases hm : lineMatch l with
  | none => simp only []; split <;> rfl
  | some m =>
    simp only []
    rw [assign_getField st _ _ f hf]
    split <;> rfl

theorem foldl_getField (ls : List Str) (st : LoopState) (f : Field)
    (hf : f ≠ Field.description) :
    getField f (ls.foldl stepLine st).data =
      (fieldValues f ls).getLast?.getD (getField f st.data) := by
  induction ls generalizing st with
  | nil => rfl
  | cons l t ih =>
    rw [List.foldl_cons, ih, stepLine_getField st l f hf]
    unfold fieldValues
    rw [List.filterMap_cons]
    cases fieldValue f l with
    | none => rfl
    | some v =>
      simp only [Option.getD_some]
      rw [List.getLast?_cons]
      rfl

theorem finish_getField (st : LoopState) (f : Field) (hf : f ≠ Field.description) :
    getField f (finish st) = getField f st.data := by
  unfold finish
  split
  · cases f <;> first | rfl | exact absurd rfl hf
  · rfl

theorem parseProjectTxt_getField (rawText filePath : Str) (f : Field)
    (hf : f ≠ Field.description) :
    getField f (parseProjectTxt rawText filePath) =
      (fieldValues f (splitLines rawText)).getLast?.getD [] := by
  unfold parseProjectTxt parseLines
  rw [finish_getField _ f hf, foldl_getField _ _ f hf]
  cases f <;> rfl

/-! ## Lemmas on the rotating indices -/

theorem rotate_iterate (length : Nat) (h : 0 < length) (ticks : Nat) :
    ∃ i, (rotateIndex length)^[ticks] (some 0) = some i ∧ i < length := by
  induction ticks with
  | zero => exact ⟨0, rfl, h⟩
  | succ t ih =>
    obtain ⟨i, hi, _⟩ := ih
    rw [Function.iterate_succ_apply', hi]
    refine ⟨(i + 1) % length, ?_, Nat.mod_lt _ h⟩
    simp [rotateIndex, Nat.pos_iff_ne_zero.mp h]

/-! ## Lemmas on the random sample -/

theorem insertRandom_perm {α : Type} (outcome : Nat → Int) (a : α) (l : List α) (k : Nat) :
    (insertRandom outcome a l k).1.Perm (a :: l) := by
  induction l generalizing k with
  | nil => exact List.Perm.refl _
  | cons b t ih =>
    unfold insertRandom
    split
    · exact List.Perm.refl _
    · exact ((ih (k + 1)).cons b).trans (List.Perm.swap a b t)

theorem sortRandom_perm {α : Type} (outcome : Nat → Int) (l : List α) (k : Nat) :
    (sortRandom outcome l k).1.Perm l := by
  induction l generalizing k with
  | nil => exact List.Perm.refl _
  | cons b t ih =>
    unfold sortRandom
    exact (insertRandom_perm outcome b _ _).trans ((ih k).cons b)

theorem insertRandom_map {α β : Type} (f : α → β) (outcome : Nat → Int) (a : α) (l : List α)
    (k : Nat) :
    insertRandom outcome (f a) (l.map f) k =
      ((insertRandom outcome a l k).1.map f, (insertRandom outcome a l k).2) := by
  induction l generalizing k with
  | nil => rfl
  | cons b t ih =>
    simp only [List.map_cons, insertRandom]
    split
    · rfl
    · rw [ih (k + 1)]
      rfl

theorem sortRandom_map {α β : Type} (f : α → β) (outcome : Nat → Int) (l : List α) (k : Nat) :
    sortRandom outcome (l.map f) k =
      ((sortRandom outcome l k).1.map f, (sortRandom outcome l k).2) := by
  induction l generalizing k with
  | nil => rfl
  | cons b t ih =>
    simp only [List.map_cons, sortRandom]
    rw [ih k, insertRandom_map]

theorem slice_zero_three {α : Type} (xs : List α) : slice xs 0 3 = xs.take 3 := by
  have h := slice_nat xs 0 3 (by omega)
  simpa using h

/-! ## Lemmas on the pages as a whole -/

theorem pages_bind {α : Type} (l : List α) (m : Nat) :
    (List.range m).flatMap (fun j => currentImages l ((j : Int) + 1)) = l.take (12 * m) := by
  induction m with
  | zero => simp
  | succ m ih =>
    rw [List.range_succ, List.flatMap_append, ih, List.flatMap_singleton, currentImages_page,
      Nat.mul_succ, List.take_add]

theorem totalPages_bounds (n : Nat) :
    n ≤ 12 * totalPages n ∧ (1 ≤ n → 12 * (totalPages n - 1) < n) := by
  unfold totalPages imagesPerPage
  constructor <;> omega

/-! ## Lemmas on the number read after `RIK-` -/

theorem splitOn_head (sep : Char) (s : Str) :
    (splitOn sep s).head? = some (s.takeWhile (fun c => c ≠ sep)) := by
  induction s with
  | nil => rfl
  | cons c t ih =>
    by_cases hc : c = sep
    · simp [splitOn, hc, List.takeWhile]
    · simp only [splitOn, hc, if_false]
      cases hs : splitOn sep t with
      | nil => rw [hs] at ih; cases ih
      | cons l ls =>
        rw [hs] at ih
        simp only [List.head?_cons, Option.some.injEq] at ih
        simp [List.takeWhile, hc, ih]

theorem second_segment (rest : Str) :
    (splitOn '-' ("RIK-".toList ++ rest))[1]? = some (rest.takeWhile (fun c => c ≠ '-')) := by
  have h := splitOn_head '-' rest
  show (splitOn '-' ('R' :: 'I' :: 'K' :: '-' :: rest))[1]? = _
  have h1 : 'R' ≠ '-' := by decide
  have h2 : 'I' ≠ '-' := by decide
  have h3 : 'K' ≠ '-' := by decide
  cases hs : splitOn '-' rest with
  | nil => rw [hs] at h; cases h
  | cons l ls =>
    rw [hs] at h
    simp only [List.head?_cons, Option.some.injEq] at h
    simp [splitOn, h1, h2, h3, hs, h]

theorem parseInt_digits_then (ds t : Str) (hne : ds ≠ []) (hd : ∀ c ∈ ds, c.isDigit = true)
    (h0 : ds.head? ≠ some '0') (ht : ∀ c, t.head? = some c → c.isDigit = false) :
    parseInt (some (ds ++ t)) = some (digitsValue 10 ds : Int) := by
  have htake : (ds ++ t).takeWhile (isRadixDigit 10) = ds := by
    cases t with
    | nil =>
      rw [List.append_nil]
      exact List.takeWhile_eq_self_iff.mpr (fun c hc => isRadixDigit_digit c (hd c hc))
    | cons x r =>
      apply takeWhile_append_stop _ _ _ _ (fun c hc => isRadixDigit_digit c (hd c hc))
      have hx : ¬ (0x30 ≤ x.toNat ∧ x.toNat ≤ 0x39) := by
        rw [← isDigit_iff, ht x rfl]; simp
      unfold isRadixDigit digitValue
      simp only [hx, if_false]
      split_ifs <;> simp
  cases ds with
  | nil => exact absurd rfl hne
  | cons c u =>
    obtain ⟨hs, hm, hp, _, _⟩ := digit_facts c (hd c (List.mem_cons_self _ _))
    have hc0 : c ≠ '0' := fun e => h0 (by simp [e])
    have hdrop : ((c :: u) ++ t).dropWhile isJsSpace = (c :: u) ++ t := by
      simp [List.dropWhile, hs]
    have hsign : readSign ((c :: u) ++ t) = (1, (c :: u) ++ t) := by
      unfold readSign
      split
      · rename_i heq; exact absurd (List.cons.inj heq).1 hm
      · rename_i heq; exact absurd (List.cons.inj heq).1 hp
      · rfl
    have hbase : readRadix ((c :: u) ++ t) = (10, (c :: u) ++ t) := by
      unfold readRadix
      split
      · rename_i heq; exact absurd (List.cons.inj heq).1 hc0
      · rename_i heq; exact absurd (List.cons.inj heq).1 hc0
      · rfl
    unfold parseInt
    simp only [hdrop, hsign, hbase, htake]
    simp

/-! ## Lemmas on `generateAltText` -/

theorem generateAltText_default (category imageName : Str)
    (h4 : category ∉ categoryOrder) (hp : category ∉ objectPrototypeKeys) :
    generateAltText category imageName = AltText.label "Fotografia profissional".toList := by
  simp only [categoryOrder, List.mem_cons, List.not_mem_nil, or_false, not_or] at h4
  unfold generateAltText
  rw [if_neg h4.1, if_neg h4.2.1, if_neg h4.2.2.1, if_neg h4.2.2.2, if_neg hp]

theorem generateAltText_category :
    ∀ c ∈ categoryOrder, ∀ imageName : Str,
      generateAltText c imageName ∈
        [AltText.label "Retrato profissional".toList, AltText.label "Fotografia de evento".toList,
         AltText.label "Fotografia de grupo".toList,
         AltText.label "Fotografia de paisagem".toList] := by
  intro c hc imageName
  simp only [categoryOrder, List.mem_cons, List.not_mem_nil, or_false] at hc
  have e : ∀ c : Str, generateAltText c imageName = generateAltText c [] := fun _ => rfl
  rcases hc with rfl | rfl | rfl | rfl <;> rw [e] <;> decide

/-! ## The claims -/

/-- C1, as stated, fails in two places.  First: the lines `a ` and `b` meet every
condition of the claim (no line break, no `key : value` match, no white space at the
two ends of the block `a \nb`), yet the description is `a\nb`, not `a \nb`: the value
of the description-key line is trimmed on its own.  Second: the empty title `X`
has no line break and no surrounding white space, yet `importProjectTexts` gives
the record the placeholder title. -/
theorem C1_record_roundtrip_counterexample :
    (NoLineBreak "a ".toList ∧ lineMatch "a ".toList = none ∧ lineMatch "b".toList = none ∧
      trim (joinLines ["a ".toList, "b".toList]) = joinLines ["a ".toList, "b".toList] ∧
      (parseProjectTxt (recordText "X".toList "a ".toList ["b".toList] "u".toList)
        "p".toList).description = "a\nb".toList ∧
      "a\nb".toList ≠ joinLines ["a ".toList, "b".toList]) ∧
    (NoLineBreak ([] : Str) ∧ trim ([] : Str) = [] ∧
      (importProjectTexts
        [("p".toList, recordText [] "line1".toList ["line2".toList] "u".toList)]).map
          (fun r => r.title) = ["Projeto sem título".toList]) := by
  decide

/-- C1, amended: for every non-empty `X` and every `U`, both without line
terminator and without surrounding white space, every first description line `l1`
without line terminator and without surrounding white space, and every list `rest`
of further lines without line terminator that do not match the key pattern, such
that the block `l1\n...\nln` has no white space at its two ends, the text
`Título: X`, `Descrição: l1`, `rest`, `Youtube: U` parses to title `X`, description
`l1\n...\nln` and `youtube` `U` with every other field empty, and
`importProjectTexts` turns it into the record with the same title and description
and `videoUrl` `U`. -/
theorem C1_record_roundtrip (X U l1 path : Str) (rest : List Str)
    (hX : NoLineBreak X) (hXt : trim X = X) (hXne : X ≠ [])
    (hU : NoLineBreak U) (hUt : trim U = U)
    (h1 : NoLineBreak l1) (h1t : trim l1 = l1)
    (hrest : ∀ l ∈ rest, NoLineBreak l ∧ lineMatch l = none)
    (hblock : trim (joinLines (l1 :: rest)) = joinLines (l1 :: rest)) :
    parseProjectTxt (recordText X l1 rest U) path =
        { title := X, description := joinLines (l1 :: rest), youtube := U, videoFile := [],
          role := [], year := [], id := path } ∧
      importProjectTexts [(path, recordText X l1 rest U)] =
        [{ id := path, title := X, description := joinLines (l1 :: rest), videoUrl := U,
           videoFile := [], role := [], year := [] }] := by
  have hp : parseProjectTxt (recordText X l1 rest U) path =
      { title := X, description := joinLines (l1 :: rest), youtube := U, videoFile := [],
        role := [], year := [], id := path } := by
    rw [parse_record_lines X U l1 path rest hX hU h1 hrest, hXt, hUt, h1t]
    by_cases hl : l1 = []
    · subst hl
      cases rest with
      | nil => simp [finish, joinLines_single]
      | cons b t => exact absurd hblock (joinLines_head_nil b t)
    · simp [finish, hl, hblock]
  refine ⟨hp, ?_⟩
  rw [importProjectTexts_eq_map]
  simp [hp, toRecord, strOr, hXne]

/-- C1, the example of the specification: title `X`, lines `line1` and `line2`,
link `https://youtu.be/abc123`. -/
theorem C1_record_roundtrip_witness :
    parseProjectTxt
        "Título: X\nDescrição: line1\nline2\nYoutube: https://youtu.be/abc123".toList
        "p".toList =
        { title := "X".toList, description := "line1\nline2".toList,
          youtube := "https://youtu.be/abc123".toList, videoFile := [],
          role := [], year := [], id := "p".toList } ∧
      importProjectTexts
        [("p".toList,
          "Título: X\nDescrição: line1\nline2\nYoutube: https://youtu.be/abc123".toList)] =
        [{ id := "p".toList, title := "X".toList, description := "line1\nline2".toList,
           videoUrl := "https://youtu.be/abc123".toList, videoFile := [], role := [],
           year := [] }] :=
  C1_record_roundtrip "X".toList "https://youtu.be/abc123".toList "line1".toList "p".toList
    ["line2".toList] (by decide) (by decide) (by decide) (by decide) (by decide) (by decide)
    (by decide) (by decide) (by decide)

/-- C2: `parseProjectTxt` returns on every text and every path a record with the
seven fields `title`, `description`, `youtube`, `videoFile`, `role`, `year` and
`id`, the last being the path; on the empty text, on a text without a colon and on
a text of blank lines the six parsed fields are empty. -/
theorem C2_parse_total (rawText filePath : Str) :
    (∃ title description youtube videoFile role year,
      parseProjectTxt rawText filePath =
        { title := title, description := description, youtube := youtube,
          videoFile := videoFile, role := role, year := year, id := filePath }) ∧
    parseProjectTxt [] filePath =
      { title := [], description := [], youtube := [], videoFile := [], role := [],
        year := [], id := filePath } ∧
    parseProjectTxt "no colon here\nnor there".toList filePath =
      { title := [], description := [], youtube := [], videoFile := [], role := [],
        year := [], id := filePath } ∧
    parseProjectTxt "\n  \n\r\n\n".toList filePath =
      { title := [], description := [], youtube := [], videoFile := [], role := [],
        year := [], id := filePath } := by
  refine ⟨?_, ?_, ?_, ?_⟩
  · have hid := parseProjectTxt_id rawText filePath
    cases hp : parseProjectTxt rawText filePath with
    | mk t d y v r yr i =>
      rw [hp] at hid
      exact ⟨t, d, y, v, r, yr, by simpa using hid⟩
  · rfl
  · rfl
  · rfl

/-- C3: for every text and path `importProjectTexts` produces one record, whose
title is not empty: it is the title `parseProjectTxt` returns when that one is not
empty and `Projeto sem título` otherwise, where the title `parseProjectTxt`
returns is the trimmed value of the last line with a title key, and empty when
there is no such line. -/
theorem C3_title_defined (blob path : Str) :
    ∃ r, importProjectTexts [(path, blob)] = [r] ∧ r.title ≠ [] ∧
      r.title = (if (parseProjectTxt blob path).title = [] then "Projeto sem título".toList
        else (parseProjectTxt blob path).title) ∧
      (parseProjectTxt blob path).title =
        (fieldValues Field.title (splitLines blob)).getLast?.getD [] := by
  refine ⟨toRecord (parseProjectTxt blob path), ?_, ?_, rfl, parseProjectTxt_title blob path⟩
  · rw [importProjectTexts_eq_map]; rfl
  · simp only [toRecord, strOr]
    split
    · decide
    · assumption

/-- C4, as stated, fails: in the text `Descrição: a`, `Nota: x`, `b` no line after
the description-key line carries a recognised key and `b` does not match the key
pattern, yet `b` is not appended: the description is `a`.  The line `Nota: x`
matches the pattern, and every matching line ends the capture. -/
theorem C4_capture_counterexample :
    splitLines "Descrição: a\nNota: x\nb".toList =
      ["Descrição: a".toList, "Nota: x".toList, "b".toList] ∧
    lineField "Descrição: a".toList = some Field.description ∧
    lineField "Nota: x".toList = none ∧ lineField "b".toList = none ∧
    lineMatch "b".toList = none ∧
    (parseProjectTxt "Descrição: a\nNota: x\nb".toList "p".toList).description = "a".toList := by
  decide

/-- C4, amended: description capture runs until the next line that matches the
key pattern, recognised or not, or the end of the input.  For every text in which
a description-key line `d` with trimmed value `v` is followed by lines none of
which carries a recognised key, the description is the trimmed join of `v` (left
out when empty) and of the following lines up to the first one that matches the
key pattern, each taken verbatim. -/
theorem C4_capture_until_key (text path : Str) (pre following : List Str) (d : Str)
    (m : Str × Str) (hs : splitLines text = pre ++ d :: following)
    (hm : lineMatch d = some m)
    (hd : keyField (toLowerCase (trim m.1)) = some Field.description)
    (hf : ∀ l ∈ following, lineField l = none) :
    (parseProjectTxt text path).description =
      trim (joinLines ((if trim m.2 = [] then [] else [trim m.2]) ++
        following.takeWhile (fun l => (lineMatch l).isNone))) := by
  unfold parseProjectTxt parseLines
  rw [hs, List.foldl_append, List.foldl_cons,
    finish_description _ (by rw [foldl_data_description, stepLine_data_description,
      foldl_data_description]; rfl)]
  have hstep : ∀ st, (stepLine st d).collectingDescription = true ∧
      (stepLine st d).descriptionBuffer = if trim m.2 = [] then [] else [trim m.2] := by
    intro st
    simp only [stepLine, hm, hd, assign, and_self]
  rw [foldl_capture following _ (hstep _).1 hf, (hstep _).2]

/-- C4, an instance: the lines `  b`, the blank line and `c ` are captured, the
line `Nota: x` ends the capture and `d` is dropped. -/
theorem C4_capture_until_key_witness :
    (parseProjectTxt "Título: T\nDescrição:  a \n  b\n\nc \nNota: x\nd\n".toList
      "p".toList).description = "a\n  b\n\nc".toList :=
  (C4_capture_until_key "Título: T\nDescrição:  a \n  b\n\nc \nNota: x\nd\n".toList "p".toList
    ["Título: T".toList] ["  b".toList, [], "c ".toList, "Nota: x".toList, "d".toList, []]
    "Descrição:  a ".toList ("Descrição".toList, "a ".toList)
    (by decide) (by decide) (by decide) (by decide)).trans (by decide)

/-- C5: for every value `V` without line terminator and every path, the one-line
text `K: V` parses to the record whose only non-empty parsed field is the trimmed
`V`, stored in `title` for `título`, `titulo`, `title`, in `youtube` for `youtube`,
`link`, `url`, in `videoFile` for `videofile`, `arquivo`, `arquivo de vídeo`,
`arquivo de video`, in `role` for `função`, `funcao`, `role`, in `year` for `ano`,
`year`, and in `description` for `descrição`, `descricao`, `description`. -/
theorem C5_key_lookup_table (V path : Str) (hV : NoLineBreak V) :
    (∀ K ∈ ["título".toList, "titulo".toList, "title".toList],
      parseProjectTxt (K ++ ": ".toList ++ V) path =
        { title := trim V, description := [], youtube := [], videoFile := [], role := [],
          year := [], id := path }) ∧
    (∀ K ∈ ["youtube".toList, "link".toList, "url".toList],
      parseProjectTxt (K ++ ": ".toList ++ V) path =
        { title := [], description := [], youtube := trim V, videoFile := [], role := [],
          year := [], id := path }) ∧
    (∀ K ∈ ["videofile".toList, "arquivo".toList, "arquivo de vídeo".toList,
        "arquivo de video".toList],
      parseProjectTxt (K ++ ": ".toList ++ V) path =
        { title := [], description := [], youtube := [], videoFile := trim V, role := [],
          year := [], id := path }) ∧
    (∀ K ∈ ["função".toList, "funcao".toList, "role".toList],
      parseProjectTxt (K ++ ": ".toList ++ V) path =
        { title := [], description := [], youtube := [], videoFile := [], role := trim V,
          year := [], id := path }) ∧
    (∀ K ∈ ["ano".toList, "year".toList],
      parseProjectTxt (K ++ ": ".toList ++ V) path =
        { title := [], description := [], youtube := [], videoFile := [], role := [],
          year := trim V, id := path }) ∧
    (∀ K ∈ ["descrição".toList, "descricao".toList, "description".toList],
      parseProjectTxt (K ++ ": ".toList ++ V) path =
        { title := [], description := trim V, youtube := [], videoFile := [], role := [],
          year := [], id := path }) := by
  have key : ∀ (K : Str) (f : Field), K ∈ recognizedKeys → keyField K = some f →
      parseProjectTxt (K ++ ": ".toList ++ V) path =
        finish (assign (initState path) (some f) (trim V)) := by
    intro K f hK hf
    obtain ⟨h1, h2⟩ := recognizedKeys_lower K hK
    rw [keyValue_eq, parse_keyValue K V path h1 (by rw [h2, hf]; simp) hV, h2, hf]
  refine ⟨?_, ?_, ?_, ?_, ?_, ?_⟩
  · intro K hK
    rw [key K .title (by revert K; decide) (by revert K; decide)]
    simp [assign, finish, initState]
  · intro K hK
    rw [key K .youtube (by revert K; decide) (by revert K; decide)]
    simp [assign, finish, initState]
  · intro K hK
    rw [key K .videoFile (by revert K; decide) (by revert K; decide)]
    simp [assign, finish, initState]
  · intro K hK
    rw [key K .role (by revert K; decide) (by revert K; decide)]
    simp [assign, finish, initState]
  · intro K hK
    rw [key K .year (by revert K; decide) (by revert K; decide)]
    simp [assign, finish, initState]
  · intro K hK
    rw [key K .description (by revert K; decide) (by revert K; decide)]
    by_cases hv : trim V = []
    · simp [assign, finish, initState, hv]
    · simp [assign, finish, initState, hv, joinLines_single, trim_trim]

/-- C5, an instance: `arquivo de vídeo:   clip.mp4 ` stores `clip.mp4` in
`videoFile`. -/
theorem C5_key_lookup_table_witness :
    NoLineBreak "  clip.mp4 ".toList ∧
    parseProjectTxt ("arquivo de vídeo".toList ++ ": ".toList ++ "  clip.mp4 ".toList)
        "p".toList =
      { title := [], description := [], youtube := [], videoFile := "clip.mp4".toList,
        role := [], year := [], id := "p".toList } :=
  ⟨by decide, ((C5_key_lookup_table "  clip.mp4 ".toList "p".toList (by decide)).2.2.1
    "arquivo de vídeo".toList (by decide)).trans (by decide)⟩

/-- C6, as stated, fails: the key `descriçao` is made of characters the key
pattern admits and becomes the recognised key `descricao` once its cedilla is
removed, yet the line `descriçao: x` stores nothing, while `descricao: x` stores
`x` in the description. -/
theorem C6_accent_counterexample :
    (∀ c ∈ "descriçao".toList, isKeyChar c = true) ∧
    keyField ((toLowerCase "descriçao".toList).map specRemoveAccent) = some Field.description ∧
    parseProjectTxt "descriçao: x".toList "p".toList =
      { title := [], description := [], youtube := [], videoFile := [], role := [], year := [],
        id := "p".toList } ∧
    (parseProjectTxt "descricao: x".toList "p".toList).description = "x".toList := by
  decide

/-- C6, amended: key recognition is case-insensitive, and accents are not
removed.  For every key `K` made of characters the key pattern admits and every
value `V` without line terminator, if `K` lower-cased is one of the spellings of
the table (which lists the accented and the plain spelling of some keys), the
line `K: V` parses exactly as the line with that spelling. -/
theorem C6_case_insensitive (K V path : Str) (hK : ∀ c ∈ K, isKeyChar c = true)
    (hf : keyField (toLowerCase K) ≠ none) (hV : NoLineBreak V) :
    parseProjectTxt (K ++ ": ".toList ++ V) path =
      parseProjectTxt (toLowerCase K ++ ": ".toList ++ V) path := by
  obtain ⟨h1, h2⟩ := recognizedKeys_lower _ (keyField_ne_none_mem _ hf)
  rw [keyValue_eq, keyValue_eq, parse_keyValue K V path hK hf hV,
    parse_keyValue (toLowerCase K) V path h1 (by rw [h2]; exact hf) hV, h2]

/-- C6, an instance: `DescriÇÃO` is read as `descrição`. -/
theorem C6_case_insensitive_witness :
    toLowerCase "DescriÇÃO".toList = "descrição".toList ∧
    parseProjectTxt ("DescriÇÃO".toList ++ ": ".toList ++ " some text".toList) "p".toList =
      parseProjectTxt ("descrição".toList ++ ": ".toList ++ " some text".toList) "p".toList :=
  ⟨by decide, C6_case_insensitive "DescriÇÃO".toList " some text".toList "p".toList
    (by decide) (by decide) (by decide)⟩

/-- C7: a line that does not match the key pattern and stands where no
description is being collected leaves no trace in the parsed record: the record
is the one of the text without that line.  This holds for a line before the first
description-key line, and for a line after a recognised key other than a
description key with no description-key line in between. -/
theorem C7_discarded_lines (pre post : List Str) (l path : Str) (hl : lineMatch l = none)
    (hpos : (∀ x ∈ pre, lineField x ≠ some Field.description) ∨
      ∃ (a : List Str) (k : Str) (b : List Str) (f : Field), pre = a ++ k :: b ∧
        lineField k = some f ∧ f ≠ Field.description ∧
        ∀ x ∈ b, lineField x ≠ some Field.description) :
    parseLines (pre ++ l :: post) path = parseLines (pre ++ post) path ∧
    ∀ text text2 : Str, splitLines text = pre ++ l :: post → splitLines text2 = pre ++ post →
      parseProjectTxt text path = parseProjectTxt text2 path := by
  have hidle : (pre.foldl stepLine (initState path)).collectingDescription = false := by
    rcases hpos with h | ⟨a, k, b, f, rfl, hk, hf, hb⟩
    · exact (foldl_idle pre _ rfl h).1
    · rw [List.foldl_append, List.foldl_cons]
      exact (foldl_idle b _ (stepLine_key_idle _ k f hk hf) hb).1
  have hlines : parseLines (pre ++ l :: post) path = parseLines (pre ++ post) path := by
    unfold parseLines
    rw [List.foldl_append, List.foldl_cons, stepLine_noMatch_idle _ l hl hidle,
      List.foldl_append]
  refine ⟨hlines, ?_⟩
  intro text text2 h1 h2
  unfold parseProjectTxt
  rw [h1, h2, hlines]

/-- C7, an instance: the line `stray` after `Ano: 2020` is dropped. -/
theorem C7_discarded_lines_witness :
    parseProjectTxt "intro\nDescrição: a\nb\nAno: 2020\nstray\nTítulo: T".toList "p".toList =
      parseProjectTxt "intro\nDescrição: a\nb\nAno: 2020\nTítulo: T".toList "p".toList :=
  (C7_discarded_lines
    ["intro".toList, "Descrição: a".toList, "b".toList, "Ano: 2020".toList]
    ["Título: T".toList] "stray".toList "p".toList (by decide)
    (Or.inr ⟨["intro".toList, "Descrição: a".toList, "b".toList], "Ano: 2020".toList, [],
      Field.year, by decide, by decide, by decide, by decide⟩)).2 _ _ (by decide) (by decide)

/-- C8: `importProjectTexts` returns one record per entry, in the order of the
entries; the `id` of a record is the path of its entry and its other fields depend
on the text alone; and for a parser that may raise, the loop returns the records
of the entries that parse, in order, an entry whose parse raises removing its own
record only. -/
theorem C8_import_isolated :
    (∀ entries : List (Str × Str),
      importProjectTexts entries =
        entries.map (fun e => toRecord (parseProjectTxt e.2 e.1))) ∧
    (∀ path text : Str, (toRecord (parseProjectTxt text path)).id = path) ∧
    (∀ path path2 text : Str,
      { toRecord (parseProjectTxt text path) with id := path2 } =
        toRecord (parseProjectTxt text path2)) ∧
    (∀ (ε : Type) (parse : Str → Str → Except ε ParsedData) (entries : List (Str × Str)),
      importWith parse entries =
        entries.filterMap (fun e =>
          match parse e.2 e.1 with
          | .ok parsed => some (toRecord parsed)
          | .error _ => none)) := by
  refine ⟨importProjectTexts_eq_map, ?_, ?_, ?_⟩
  · intro path text
    simp [toRecord, parseProjectTxt_id]
  · intro path path2 text
    rw [parseProjectTxt_path text path path2]
    rfl
  · intro ε parse entries
    exact (importWith_append parse entries []).trans (List.nil_append _)

/-- C9: for every file name `categorizeImage` returns one of `retratos`,
`eventos`, `grupos`, `paisagens`, which are four different strings. -/
theorem C9_categorize_total (imageName : Str) :
    (categorizeImage imageName = "retratos".toList ∨
      categorizeImage imageName = "eventos".toList ∨
      categorizeImage imageName = "grupos".toList ∨
      categorizeImage imageName = "paisagens".toList) ∧
    ["retratos".toList, "eventos".toList, "grupos".toList, "paisagens".toList].Nodup := by
  refine ⟨?_, by decide⟩
  unfold categorizeImage
  simp only
  split_ifs <;> simp

/-- C10: for every non-empty string `ds` of decimal digits, denoting the number
`n`, the category of the file name `RIK-` followed by `ds` is `eventos` when `n` is
in the events set, `grupos` when it is in the groups set, `paisagens` when it is in
the landscapes set and `retratos` when it is in the new-portraits set. -/
theorem C10_numbered_sets (ds : Str) (n : Nat) (hne : ds ≠ [])
    (hd : ∀ c ∈ ds, c.isDigit = true)
    (hn : Nat.ofDigits 10 (ds.reverse.map (fun c => c.toNat - 48)) = n) :
    (n ∈ [4487, 4501, 4504, 4508, 6640, 6663, 6672, 6682, 6715] →
      categorizeImage ("RIK-".toList ++ ds) = "eventos".toList) ∧
    (n ∈ [4512, 4513, 4515] → categorizeImage ("RIK-".toList ++ ds) = "grupos".toList) ∧
    (n ∈ [3694, 6631, 6696] → categorizeImage ("RIK-".toList ++ ds) = "paisagens".toList) ∧
    (n ∈ [6452, 6478, 6479, 6744] →
      categorizeImage ("RIK-".toList ++ ds) = "retratos".toList) := by
  rw [categorizeImage_numbered ds hne hd, digitsValue_digits ds hd, hn]
  refine ⟨?_, ?_, ?_, ?_⟩
  · intro h
    simp only [List.mem_cons, List.not_mem_nil, or_false] at h
    rcases h with h | h | h | h | h | h | h | h | h <;> subst h <;> decide
  · intro h
    simp only [List.mem_cons, List.not_mem_nil, or_false] at h
    rcases h with h | h | h <;> subst h <;> decide
  · intro h
    simp only [List.mem_cons, List.not_mem_nil, or_false] at h
    rcases h with h | h | h <;> subst h <;> decide
  · intro h
    simp only [List.mem_cons, List.not_mem_nil, or_false] at h
    rcases h with h | h | h | h <;> subst h <;> decide

/-- C10, instances: `RIK-4487` is `eventos`, and so is `RIK-04487`. -/
theorem C10_numbered_sets_witness :
    categorizeImage "RIK-4487".toList = "eventos".toList ∧
    categorizeImage "RIK-04487".toList = "eventos".toList :=
  ⟨(C10_numbered_sets "4487".toList 4487 (by decide) (by decide) (by decide)).1 (by decide),
   (C10_numbered_sets "04487".toList 4487 (by decide) (by decide) (by decide)).1 (by decide)⟩

/-- C11: every file name that starts with `IMG_` is categorised `retratos`,
whatever follows the prefix, a number of the events, groups or landscapes set
included. -/
theorem C11_portrait_prefix (rest : Str) :
    categorizeImage ("IMG_".toList ++ rest) = "retratos".toList ∧
    categorizeImage "IMG_4487".toList = "retratos".toList ∧
    categorizeImage "IMG_-4512".toList = "retratos".toList := by
  refine ⟨?_, by decide, by decide⟩
  unfold categorizeImage
  simp only [isPrefixOf_append, if_true]

/-- C12: `categorizeImage` defaults to `retratos`.  A file name that starts with
`RIK-` and whose number (what `parseInt` reads in the text between the first and
the second hyphen) is `NaN` or in none of the four sets is `retratos`; so is a
name `RIK-` followed by decimal digits that denote a number in none of the sets;
and so is every name that starts with neither `IMG_` nor `RIK-`. -/
theorem C12_default_category (imageName : Str) :
    ("RIK-".toList.isPrefixOf imageName = true →
      (∀ n, parseInt ((splitOn '-' imageName)[1]?) = some n →
        n ∉ ([4487, 4501, 4504, 4508, 6640, 6663, 6672, 6682, 6715] : List Int) ∧
        n ∉ ([4512, 4513, 4515] : List Int) ∧ n ∉ ([3694, 6631, 6696] : List Int) ∧
        n ∉ ([6452, 6478, 6479, 6744] : List Int)) →
      categorizeImage imageName = "retratos".toList) ∧
    ("IMG_".toList.isPrefixOf imageName = false → "RIK-".toList.isPrefixOf imageName = false →
      categorizeImage imageName = "retratos".toList) ∧
    (∀ (ds : Str) (n : Nat), ds ≠ [] → (∀ c ∈ ds, c.isDigit = true) →
      Nat.ofDigits 10 (ds.reverse.map (fun c => c.toNat - 48)) = n →
      (n : Int) ∉ ([4487, 4501, 4504, 4508, 6640, 6663, 6672, 6682, 6715] : List Int) →
      (n : Int) ∉ ([4512, 4513, 4515] : List Int) → (n : Int) ∉ ([3694, 6631, 6696] : List Int) →
      categorizeImage ("RIK-".toList ++ ds) = "retratos".toList) := by
  refine ⟨?_, categorizeImage_other imageName, ?_⟩
  · intro hp hn
    rw [categorizeImage_rik imageName hp]
    apply firstTest_none
    intro t ht
    cases hnum : parseInt ((splitOn '-' imageName)[1]?) with
    | none => rfl
    | some n =>
      obtain ⟨h1, h2, h3, h4⟩ := hn n hnum
      simp only [numberTests, List.mem_cons, List.not_mem_nil, or_false] at ht
      rcases ht with rfl | rfl | rfl | rfl <;> simp only [includes, decide_eq_false_iff_not] <;>
        assumption
  · intro ds n hne hd hn h1 h2 h3
    rw [categorizeImage_numbered ds hne hd, digitsValue_digits ds hd, hn, if_neg h1, if_neg h2,
      if_neg h3]

/-- C12, instances: `RIK-1234` (a number in no set), `RIK-abc` (not a number),
the empty name and `rik-4487` are `retratos`. -/
theorem C12_default_category_witness :
    categorizeImage "RIK-1234".toList = "retratos".toList ∧
    categorizeImage "RIK-abc".toList = "retratos".toList ∧
    categorizeImage [] = "retratos".toList ∧
    categorizeImage "rik-4487".toList = "retratos".toList :=
  ⟨(C12_default_category "RIK-1234".toList).1 (by decide) (fun n hn => by
      have h : parseInt ((splitOn '-' "RIK-1234".toList)[1]?) = some 1234 := by decide
      rw [h] at hn
      cases hn
      decide),
   (C12_default_category "RIK-abc".toList).1 (by decide) (fun n hn => by
      have h : parseInt ((splitOn '-' "RIK-abc".toList)[1]?) = none := by decide
      rw [h] at hn
      cases hn),
   (C12_default_category []).2.1 (by decide) (by decide),
   (C12_default_category "rik-4487".toList).2.1 (by decide) (by decide)⟩

/-- C13: two file names that start with `RIK-` and embed the same number (what
`parseInt` reads in the text between the first and the second hyphen, `NaN`
included) have the same category, whatever else the two names contain. -/
theorem C13_number_alone (a b : Str) (ha : "RIK-".toList.isPrefixOf a = true)
    (hb : "RIK-".toList.isPrefixOf b = true)
    (hn : parseInt ((splitOn '-' a)[1]?) = parseInt ((splitOn '-' b)[1]?)) :
    categorizeImage a = categorizeImage b := by
  rw [categorizeImage_rik a ha, categorizeImage_rik b hb, hn]

/-- C13, an instance: `RIK-4512-final copy` and `RIK- 4512.5x` both embed 4512. -/
theorem C13_number_alone_witness :
    parseInt ((splitOn '-' "RIK-4512-final copy".toList)[1]?) = some 4512 ∧
    categorizeImage "RIK-4512-final copy".toList = categorizeImage "RIK- 4512.5x".toList :=
  ⟨by decide, C13_number_alone "RIK-4512-final copy".toList "RIK- 4512.5x".toList (by decide)
    (by decide) (by decide)⟩

/-- C14: the four sets of `categorizeImage` are pairwise disjoint; on a name that
starts with `RIK-` the function returns the category of the first of the four
tests that the number passes; and running the four tests in any other order
returns the same category for every number. -/
theorem C14_sets_disjoint :
    numberTests.Pairwise (fun s t => ∀ n ∈ s.1, n ∉ t.1) ∧
    (∀ rest : Str, categorizeImage ("RIK-".toList ++ rest) =
      firstTest numberTests (parseInt ((splitOn '-' ("RIK-".toList ++ rest))[1]?))) ∧
    (∀ tests : List (List Int × Str), tests.Perm numberTests → ∀ number : Option Int,
      firstTest tests number = firstTest numberTests number) :=
  ⟨numberTests_disjoint, fun rest => categorizeImage_rik _ (isPrefixOf_append _ rest),
    firstTest_perm⟩

/-- C14, an instance: with the four tests in reverse order 4512 is still
`grupos`. -/
theorem C14_sets_disjoint_witness :
    firstTest numberTests.reverse (some 4512) = "grupos".toList ∧
    firstTest numberTests (some 4512) = "grupos".toList :=
  ⟨(C14_sets_disjoint.2.2 numberTests.reverse (List.reverse_perm _) (some 4512)).trans
    (by decide), by decide⟩

/-- C15: for a `localeCompare` that is a consistent comparison function, any two
entries of the gallery, the first standing before the second, are in the
precedence `retratos`, `eventos`, `grupos`, `paisagens` of their categories, and
when their categories are equal the name of the first does not compare greater
than the name of the second. -/
theorem C15_gallery_sorted (localeCompare : Str → Str → Int)
    (hc : ConsistentComparator localeCompare) (allImages : List (Str × Str)) :
    (generateGalleryImages localeCompare allImages).Pairwise (fun a b =>
      indexOf categoryOrder a.category ≤ indexOf categoryOrder b.category ∧
      (a.category = b.category → localeCompare a.name b.name ≤ 0)) := by
  have hvalid : ∀ g ∈ generateGalleryImages localeCompare allImages,
      g.category ∈ categoryOrder := by
    intro g hg
    obtain ⟨e, _, _, rfl⟩ := (mem_gallery localeCompare allImages g).mp hg
    exact categorizeImage_mem e.1
  refine (gallery_pairwise localeCompare hc allImages).imp_of_mem ?_
  intro a b ha hb hab
  rw [compareImages_le_iff localeCompare a b (hvalid a ha) (hvalid b hb)] at hab
  rcases hab with h | ⟨e, h⟩
  · exact ⟨le_of_lt h, fun e => absurd h (by rw [e]; exact lt_irrefl _)⟩
  · exact ⟨by rw [e], fun _ => h⟩

/-- C15, an instance with the comparison by code points. -/
theorem C15_gallery_sorted_witness :
    (generateGalleryImages codePointCompare
      [("RIK-4487".toList, "a".toList), ("IMG_2".toList, "b".toList),
       ("RIK-3694".toList, "c".toList), ("IMG_1".toList, "d".toList)]).Pairwise (fun a b =>
      indexOf categoryOrder a.category ≤ indexOf categoryOrder b.category ∧
      (a.category = b.category → codePointCompare a.name b.name ≤ 0)) :=
  C15_gallery_sorted codePointCompare codePointCompare_consistent _

/-- C16, as stated, fails: `localeCompare` returns 0 on canonically equivalent
strings, and two image names can differ and yet be canonically equivalent, as
`caf` + U+00E9 and `cafe` + U+0301.  For a consistent comparison function that
returns 0 on this pair, the two enumeration orders of these two images give two
different galleries: the sort is stable and leaves them as enumerated. -/
theorem C16_enumeration_counterexample :
    ConsistentComparator canonicalCompare ∧
    "caf\u00e9".toList ≠ "cafe\u0301".toList ∧
    canonicalCompare "caf\u00e9".toList "cafe\u0301".toList = 0 ∧
    [("cafe\u0301".toList, "b".toList), ("caf\u00e9".toList, "a".toList)].Perm
      [("caf\u00e9".toList, "a".toList), ("cafe\u0301".toList, "b".toList)] ∧
    generateGalleryImages canonicalCompare
        [("caf\u00e9".toList, "a".toList), ("cafe\u0301".toList, "b".toList)] ≠
      generateGalleryImages canonicalCompare
        [("cafe\u0301".toList, "b".toList), ("caf\u00e9".toList, "a".toList)] :=
  ⟨canonicalCompare_consistent, by decide, by decide, List.Perm.swap _ _ _, by decide⟩

/-- C16, amended: for a `localeCompare` that is a consistent comparison function,
every list of images with pairwise distinct names no two of which compare equal,
and every other enumeration order of the same images, `generateGalleryImages`
returns the identical sequence. -/
theorem C16_enumeration_independent (localeCompare : Str → Str → Int)
    (hc : ConsistentComparator localeCompare) (allImages allImages2 : List (Str × Str))
    (hp : allImages2.Perm allImages) (hnodup : (allImages.map Prod.fst).Nodup)
    (hapart : ∀ a ∈ allImages.map Prod.fst, ∀ b ∈ allImages.map Prod.fst,
      localeCompare a b = 0 → a = b) :
    generateGalleryImages localeCompare allImages2 =
      generateGalleryImages localeCompare allImages := by
  have hperm : (generateGalleryImages localeCompare allImages2).Perm
      (generateGalleryImages localeCompare allImages) :=
    (gallery_perm localeCompare allImages2).trans
      (((hp.filter _).map _).trans (gallery_perm localeCompare allImages).symm)
  refine eq_of_perm_of_pairwise (fun a b => compareImages localeCompare a b ≤ 0) _ _ hperm
    (gallery_pairwise localeCompare hc allImages2) (gallery_pairwise localeCompare hc allImages) ?_
  intro a ha b hb hab hba
  obtain ⟨e, he, _, rfl⟩ := (mem_gallery localeCompare allImages a).mp (hperm.subset ha)
  obtain ⟨e2, he2, _, rfl⟩ := (mem_gallery localeCompare allImages b).mp (hperm.subset hb)
  rw [compareImages_le_iff localeCompare _ _ (categorizeImage_mem _) (categorizeImage_mem _)]
    at hab hba
  have hname : e.1 = e2.1 := by
    rcases hab with h | ⟨_, h⟩ <;> rcases hba with h2 | ⟨_, h2⟩
    · exact absurd (lt_trans h h2) (lt_irrefl _)
    · rename_i e3; rw [show (toGalleryImage e2).category = (toGalleryImage e).category from e3] at h
      exact absurd h (lt_irrefl _)
    · rename_i e3; rw [show (toGalleryImage e).category = (toGalleryImage e2).category from e3] at h2
      exact absurd h2 (lt_irrefl _)
    · exact hapart e.1 (List.mem_map_of_mem _ he) e2.1 (List.mem_map_of_mem _ he2)
        (consistent_zero localeCompare hc _ _ h h2)
  rw [List.inj_on_of_nodup_map hnodup he he2 hname]

/-- C16, an instance with the comparison by code points. -/
theorem C16_enumeration_independent_witness :
    generateGalleryImages codePointCompare
        [("RIK-4487".toList, "a".toList), ("IMG_2".toList, "b".toList),
         ("IMG_1".toList, "d".toList)] =
      generateGalleryImages codePointCompare
        [("IMG_1".toList, "d".toList), ("IMG_2".toList, "b".toList),
         ("RIK-4487".toList, "a".toList)] :=
  C16_enumeration_independent codePointCompare codePointCompare_consistent _ _
    (by decide) (by decide) (by decide)

/-- C17: the gallery is a rearrangement of the loaded images other than
`IMG_9998`, each turned into one entry with its source, its name, the category
`categorizeImage(name)` and the alt text `generateAltText(category)`; no entry is
named `IMG_9998`. -/
theorem C17_gallery_content (localeCompare : Str → Str → Int) (allImages : List (Str × Str)) :
    (generateGalleryImages localeCompare allImages).Perm
      ((allImages.filter (fun e => e.1 ≠ "IMG_9998".toList)).map
        (fun e => { src := e.2, category := categorizeImage e.1,
                    alt := generateAltText (categorizeImage e.1) e.1, name := e.1 })) ∧
    ∀ g ∈ generateGalleryImages localeCompare allImages,
      g.name ≠ "IMG_9998".toList ∧ g.category = categorizeImage g.name ∧
        g.alt = generateAltText g.category g.name := by
  refine ⟨gallery_perm localeCompare allImages, ?_⟩
  intro g hg
  obtain ⟨e, _, hne, rfl⟩ := (mem_gallery localeCompare allImages g).mp hg
  exact ⟨hne, rfl, rfl⟩

/-- C17, an instance: of three loaded images the hero is left out and the two
others are kept, classified. -/
theorem C17_gallery_content_witness :
    (generateGalleryImages codePointCompare
      [("RIK-4487".toList, "a".toList), ("IMG_9998".toList, "h".toList),
       ("IMG_1".toList, "b".toList)]).Perm
      [{ src := "a".toList, category := "eventos".toList,
         alt := AltText.label "Fotografia de evento".toList, name := "RIK-4487".toList },
       { src := "b".toList, category := "retratos".toList,
         alt := AltText.label "Retrato profissional".toList, name := "IMG_1".toList }] :=
  (C17_gallery_content codePointCompare
    [("RIK-4487".toList, "a".toList), ("IMG_9998".toList, "h".toList),
     ("IMG_1".toList, "b".toList)]).1.trans (List.Perm.of_eq (by decide))

/-- C18: for every page number `k ≥ 1`, page `k` is the slice of the sequence from
offset `(k-1)*12` up to, not including, offset `k*12`; it has
`min(12, max(0, n - 12*(k-1)))` items; the page count is the ceiling of `n/12`; and
for `n = 30` page 1 has 12 items, page 3 has 6, page 4 is empty and there are 3
pages. -/
theorem C18_pagination {α : Type} (galleryImages : List α) (k : Int) (hk : 1 ≤ k) :
    currentImages galleryImages k =
        (galleryImages.drop ((k.toNat - 1) * 12)).take 12 ∧
    ((currentImages galleryImages k).length : Int) =
        min 12 (max 0 ((galleryImages.length : Int) - 12 * (k - 1))) ∧
    (totalPages galleryImages.length : Int) = ⌈(galleryImages.length : ℚ) / 12⌉ ∧
    (galleryImages.length = 30 →
      (currentImages galleryImages 1).length = 12 ∧
      (currentImages galleryImages 3).length = 6 ∧
      currentImages galleryImages 4 = [] ∧ totalPages galleryImages.length = 3) := by
  obtain ⟨j, rfl⟩ : ∃ j : Nat, k = (j : Int) + 1 := ⟨(k - 1).toNat, by omega⟩
  have hj : ((j : Int) + 1).toNat - 1 = j := by omega
  have hpage := currentImages_page galleryImages j
  refine ⟨?_, ?_, totalPages_ceil _, ?_⟩
  · rw [hpage, hj, Nat.mul_comm]
  · rw [hpage, List.length_take, List.length_drop]
    omega
  · intro h30
    have p1 := currentImages_page galleryImages 0
    have p3 := currentImages_page galleryImages 2
    have p4 := currentImages_page galleryImages 3
    simp only [Nat.cast_zero, zero_add, Nat.cast_ofNat] at p1 p3 p4
    norm_num at p3 p4
    refine ⟨?_, ?_, ?_, ?_⟩
    · rw [p1, List.length_take, List.length_drop]; omega
    · rw [p3, List.length_take, List.length_drop]; omega
    · rw [p4, List.take_eq_nil_iff]
      right
      exact List.drop_of_length_le (by omega)
    · rw [h30]; rfl

/-- C18, an instance: the pages 3 and 4 of a sequence of 30 items. -/
theorem C18_pagination_witness :
    currentImages (List.range 30) 3 = [24, 25, 26, 27, 28, 29] ∧
    currentImages (List.range 30) 4 = [] :=
  ⟨(C18_pagination (List.range 30) 3 (by decide)).1.trans (by decide),
    ((C18_pagination (List.range 30) 3 (by decide)).2.2.2 (by decide)).2.2.1⟩

/-- C19: for every identifier `id` of letters, digits, `-` and `_`, and a
constructor `URL` that reads the four URLs as the URL Standard does,
`getYouTubeId` returns `id` for `https://youtu.be/<id>`,
`https://www.youtube.com/watch?v=<id>`, `https://www.youtube.com/shorts/<id>` and
`https://www.youtube.com/embed/<id>`. -/
theorem C19_youtube_shapes (newURL : Str → Option UrlRecord) (id : Str) (hid : IdChars id)
    (hurl : ParsesYouTubeShapes newURL id) :
    getYouTubeId newURL ("https://youtu.be/".toList ++ id) = id ∧
    getYouTubeId newURL ("https://www.youtube.com/watch?v=".toList ++ id) = id ∧
    getYouTubeId newURL ("https://www.youtube.com/shorts/".toList ++ id) = id ∧
    getYouTubeId newURL ("https://www.youtube.com/embed/".toList ++ id) = id := by
  obtain ⟨h1, h2, h3, h4⟩ := hurl
  have hs : '/' ∉ id := idChars_ne id hid '/' (by decide) (by decide) (by decide)
  have hhost : stringIncludes "www.youtube.com".toList "youtu.be".toList = false := by decide
  refine ⟨?_, ?_, ?_, ?_⟩
  · simp only [getYouTubeId, h1, youTubeIdOf]
    simp [stringIncludes]
  · simp only [getYouTubeId, h2, youTubeIdOf, hhost]
    cases id with
    | nil => simp; decide
    | cons c v => simp
  · simp only [getYouTubeId, h3, youTubeIdOf, hhost]
    have := segmentAfterMarker_shape "shorts".toList id (Or.inl rfl) hs
    simpa using this
  · simp only [getYouTubeId, h4, youTubeIdOf, hhost]
    have := segmentAfterMarker_shape "embed".toList id (Or.inr rfl) hs
    simpa using this

/-- C19, the examples of the specification: `abc123`, `xyz789` and `qq11`. -/
theorem C19_youtube_shapes_witness :
    getYouTubeId plainHttpsUrl "https://youtu.be/abc123".toList = "abc123".toList ∧
    getYouTubeId plainHttpsUrl "https://www.youtube.com/watch?v=xyz789".toList =
      "xyz789".toList ∧
    getYouTubeId plainHttpsUrl "https://www.youtube.com/shorts/qq11".toList = "qq11".toList ∧
    getYouTubeId plainHttpsUrl "https://www.youtube.com/embed/qq11".toList = "qq11".toList :=
  ⟨(C19_youtube_shapes plainHttpsUrl "abc123".toList (by decide) (by decide)).1,
   (C19_youtube_shapes plainHttpsUrl "xyz789".toList (by decide) (by decide)).2.1,
   (C19_youtube_shapes plainHttpsUrl "qq11".toList (by decide) (by decide)).2.2.1,
   (C19_youtube_shapes plainHttpsUrl "qq11".toList (by decide) (by decide)).2.2.2⟩

/-- C20: `getYouTubeId` returns the empty string for the empty URL, for every
string on which the constructor `URL` throws, and for every URL whose host does
not contain `youtu.be`, whose query has no parameter `v` or an empty one, and
whose path has no segment `shorts` or `embed`, or has nothing, or an empty
segment, after the first such segment. -/
theorem C20_youtube_no_shape (newURL : Str → Option UrlRecord) (url : Str) :
    getYouTubeId newURL [] = [] ∧
    (newURL url = none → getYouTubeId newURL url = []) ∧
    (∀ u, newURL url = some u → stringIncludes u.hostname "youtu.be".toList = false →
      (u.searchParams.lookup "v".toList = none ∨ u.searchParams.lookup "v".toList = some []) →
      ((∀ p ∈ splitOn '/' u.pathname, p ≠ "shorts".toList ∧ p ≠ "embed".toList) ∨
        segmentAfterMarker (splitOn '/' u.pathname) = []) →
      getYouTubeId newURL url = []) := by
  refine ⟨rfl, ?_, ?_⟩
  · intro h
    unfold getYouTubeId
    split
    · rfl
    · rw [h]
  · intro u hu hhost hv hpath
    have hseg : segmentAfterMarker (splitOn '/' u.pathname) = [] := by
      rcases hpath with h | h
      · unfold segmentAfterMarker
        have : (splitOn '/' u.pathname).findIdx?
            (fun p => decide (p = "shorts".toList ∨ p = "embed".toList)) = none := by
          rw [List.findIdx?_eq_none_iff]
          intro p hp
          have := h p hp
          exact decide_eq_false (fun hor => hor.elim this.1 this.2)
        rw [this]
      · exact h
    unfold getYouTubeId
    split
    · rfl
    · rw [hu]
      simp only [youTubeIdOf, hhost]
      rcases hv with h | h <;> rw [h] <;> simpa using hseg

/-- C20, the example of the specification, `https://example.com/video`, and a
string that is no URL. -/
theorem C20_youtube_no_shape_witness :
    getYouTubeId plainHttpsUrl "https://example.com/video".toList = [] ∧
    getYouTubeId plainHttpsUrl "not a url".toList = [] :=
  ⟨(C20_youtube_no_shape plainHttpsUrl "https://example.com/video".toList).2.2
      { hostname := "example.com".toList, pathname := "/video".toList, searchParams := [] }
      (by decide) (by decide) (by decide) (by decide),
   (C20_youtube_no_shape plainHttpsUrl "not a url".toList).2.1 (by decide)⟩

/-- C21: for every length `N ≥ 1` and every index `i < N` the updater gives
`(i + 1) mod N`, which is at most `N - 1`, and no `NaN`; starting from 0, the
background index and the biography index are numbers below `N` after any number
of ticks; and for `N = 0` both stay 0, no tick being applied. -/
theorem C21_carousel_index (length : Nat) :
    (1 ≤ length → ∀ i, i < length →
      rotateIndex length (some i) = some ((i + 1) % length) ∧ (i + 1) % length ≤ length - 1) ∧
    (1 ≤ length → ∀ ticks,
      (∃ i, backgroundIndexAfter length ticks = some i ∧ i < length) ∧
      (∃ i, biographyIndexAfter length ticks = some i ∧ i < length)) ∧
    (∀ ticks, backgroundIndexAfter 0 ticks = some 0 ∧ biographyIndexAfter 0 ticks = some 0) := by
  refine ⟨?_, ?_, fun _ => ⟨rfl, rfl⟩⟩
  · intro h i _
    have hm := Nat.mod_lt (i + 1) h
    refine ⟨?_, by omega⟩
    simp [rotateIndex, Nat.pos_iff_ne_zero.mp h]
  · intro h ticks
    constructor
    · unfold backgroundIndexAfter
      split
      · exact rotate_iterate length h ticks
      · exact ⟨0, rfl, h⟩
    · unfold biographyIndexAfter
      rw [if_pos (show length > 0 from h)]
      exact rotate_iterate length h ticks

/-- C21, an instance: three images, seven ticks. -/
theorem C21_carousel_index_witness :
    (∃ i, backgroundIndexAfter 3 7 = some i ∧ i < 3) ∧
    (∃ i, biographyIndexAfter 3 7 = some i ∧ i < 3) :=
  (C21_carousel_index 3).2.1 (by decide) 7

/-- C22, as stated, fails: a gallery of two images gives a preview of two
entries, and an empty gallery an empty preview, not three entries. -/
theorem C22_sample_counterexample :
    getRandomImages (fun _ => 1) ["a", "b"] = ["b", "a"] ∧
    (getRandomImages (fun _ => 1) ["a", "b"]).length ≠ 3 ∧
    getRandomImages (fun _ => -1) ([] : List String) = [] := by
  decide

/-- C22, amended: for every gallery sequence of length `n` and every outcome of
the random comparison function, `getRandomImages` returns `min(3, n)` entries
taken from pairwise distinct positions of the sequence. -/
theorem C22_sample_without_replacement {α : Type} (outcome : Nat → Int)
    (galleryImages : List α) :
    (getRandomImages outcome galleryImages).length = min 3 galleryImages.length ∧
    (getRandomImages outcome galleryImages).Subperm galleryImages ∧
    ∃ positions : List (Fin galleryImages.length), positions.Nodup ∧
      getRandomImages outcome galleryImages = positions.map galleryImages.get := by
  unfold getRandomImages
  rw [slice_zero_three]
  refine ⟨?_, ?_, ?_⟩
  · rw [List.length_take, (sortRandom_perm outcome galleryImages 0).length_eq]
  · exact ((List.take_sublist _ _).subperm).trans (sortRandom_perm outcome galleryImages 0).subperm
  · refine ⟨((sortRandom outcome (List.finRange galleryImages.length) 0).1).take 3, ?_, ?_⟩
    · exact ((sortRandom_perm outcome _ 0).nodup_iff.mpr (List.nodup_finRange _)).sublist
        (List.take_sublist _ _)
    · conv_lhs => rw [← List.finRange_map_get galleryImages]
      rw [sortRandom_map, List.map_take]

/-- C23, as stated, fails: `constructor` is none of the four categories, yet
`generateAltText('constructor', 'IMG_1')` is not the default label:
`altTexts['constructor']` is the function that the object literal inherits from
`Object.prototype`, it is truthy, and it is returned in place of the label. The
same holds for every property name inherited from `Object.prototype`. -/
theorem C23_alt_text_counterexample :
    "constructor".toList ∉ categoryOrder ∧
    generateAltText "constructor".toList "IMG_1".toList =
      AltText.inherited "constructor".toList ∧
    generateAltText "constructor".toList "IMG_1".toList ≠
      AltText.label "Fotografia profissional".toList ∧
    (∀ key ∈ objectPrototypeKeys, key ∉ categoryOrder ∧
      generateAltText key "IMG_1".toList ≠ AltText.label "Fotografia profissional".toList) ∧
    ¬ (∀ category imageName : Str, category ∉ categoryOrder →
        generateAltText category imageName =
          AltText.label "Fotografia profissional".toList) := by
  refine ⟨by decide, by decide, by decide, by decide, ?_⟩
  intro h
  exact absurd (h "constructor".toList "IMG_1".toList (by decide)) (by decide)

/-- C23, amended: whatever the second argument is, `generateAltText` maps each
of the four categories to its fixed label, and returns the default label
`Fotografia profissional` for every other category value that is not the name
of a property inherited from `Object.prototype`. -/
theorem C23_alt_text_labels (category imageName : Str) :
    generateAltText "retratos".toList imageName =
      AltText.label "Retrato profissional".toList ∧
    generateAltText "eventos".toList imageName =
      AltText.label "Fotografia de evento".toList ∧
    generateAltText "grupos".toList imageName =
      AltText.label "Fotografia de grupo".toList ∧
    generateAltText "paisagens".toList imageName =
      AltText.label "Fotografia de paisagem".toList ∧
    (category ∉ ["retratos".toList, "eventos".toList, "grupos".toList, "paisagens".toList] →
      category ∉ objectPrototypeKeys →
      generateAltText category imageName = AltText.label "Fotografia profissional".toList) := by
  have e : ∀ c : Str, generateAltText c imageName = generateAltText c [] := fun _ => rfl
  refine ⟨?_, ?_, ?_, ?_, fun h4 hp => generateAltText_default category imageName h4 hp⟩ <;>
    rw [e] <;> decide

/-- C23 at the category `outros` and at the empty category, with the second
argument `IMG_1`. -/
theorem C23_alt_text_labels_witness :
    generateAltText "outros".toList "IMG_1".toList =
      AltText.label "Fotografia profissional".toList ∧
    generateAltText [] "IMG_1".toList = AltText.label "Fotografia profissional".toList :=
  ⟨(C23_alt_text_labels "outros".toList "IMG_1".toList).2.2.2.2 (by decide) (by decide),
   (C23_alt_text_labels [] "IMG_1".toList).2.2.2.2 (by decide) (by decide)⟩

/-- C24: for every path and every text none of whose lines carries a recognised
key, `importProjectTexts` produces the record with the path as `id`, the title
`Projeto sem título` and every other field empty. -/
theorem C24_default_record (path text : Str)
    (hl : ∀ l ∈ splitLines text, lineField l = none) :
    importProjectTexts [(path, text)] =
      [{ id := path, title := "Projeto sem título".toList, description := [], videoUrl := [],
         videoFile := [], role := [], year := [] }] := by
  rw [importProjectTexts_eq_map]
  have hp : parseProjectTxt text path = (initState path).data := by
    unfold parseProjectTxt parseLines
    rw [foldl_unrecognized _ _ hl rfl]
    rfl
  simp only [List.map_cons, List.map_nil, hp]
  rfl

/-- C24, instances: the empty text, and a text of free lines and unrecognised
keys. -/
theorem C24_default_record_witness :
    importProjectTexts [("p".toList, [])] =
      [{ id := "p".toList, title := "Projeto sem título".toList, description := [],
         videoUrl := [], videoFile := [], role := [], year := [] }] ∧
    importProjectTexts [("p".toList, "Nota: x\nfree text\n\nAutor: y".toList)] =
      [{ id := "p".toList, title := "Projeto sem título".toList, description := [],
         videoUrl := [], videoFile := [], role := [], year := [] }] :=
  ⟨C24_default_record "p".toList [] (by decide),
   C24_default_record "p".toList "Nota: x\nfree text\n\nAutor: y".toList (by decide)⟩

/-- C25: for every text whose last description-key line `d` has the trimmed value
`v` (the variable `value` of the source), the description is the trimmed join,
with line feeds, of `v`, left out when empty, and of the collected lines: the
lines after `d` up to the first one that matches the key pattern, each verbatim. -/
theorem C25_description_join (text path : Str) (pre post : List Str) (d : Str)
    (m : Str × Str) (hs : splitLines text = pre ++ d :: post)
    (hm : lineMatch d = some m)
    (hd : keyField (toLowerCase (trim m.1)) = some Field.description)
    (hlast : ∀ l ∈ post, lineField l ≠ some Field.description) :
    (parseProjectTxt text path).description =
      trim (joinLines ((if trim m.2 = [] then [] else [trim m.2]) ++
        post.takeWhile (fun l => (lineMatch l).isNone))) := by
  unfold parseProjectTxt
  rw [parseLines_description, hs, List.foldl_append, List.foldl_cons]
  have hstep : ∀ st, (stepLine st d).collectingDescription = true ∧
      (stepLine st d).descriptionBuffer = if trim m.2 = [] then [] else [trim m.2] := by
    intro st
    simp only [stepLine, hm, hd, assign, and_self]
  rw [foldl_capture_last post _ (hstep _).1 hlast, (hstep _).2]

/-- C25, an instance: inner white space and the inner blank line are kept, the
blank line at the end is trimmed, the earlier block is dropped. -/
theorem C25_description_join_witness :
    (parseProjectTxt "Descrição: old\nx\nDescrição:  a \n  b \n\n c\n\nAno: 2020\nz".toList
      "p".toList).description = "a\n  b \n\n c".toList :=
  (C25_description_join "Descrição: old\nx\nDescrição:  a \n  b \n\n c\n\nAno: 2020\nz".toList
    "p".toList ["Descrição: old".toList, "x".toList]
    ["  b ".toList, [], " c".toList, [], "Ano: 2020".toList, "z".toList]
    "Descrição:  a ".toList ("Descrição".toList, "a ".toList)
    (by decide) (by decide) (by decide) (by decide)).trans (by decide)

/-- C26: for every file name the alt text of its category is one of the four
category labels, never the default label `Fotografia profissional`; so no entry of
the gallery carries the default alt text. -/
theorem C26_default_unreachable (imageName : Str) :
    generateAltText (categorizeImage imageName) imageName ∈
      [AltText.label "Retrato profissional".toList, AltText.label "Fotografia de evento".toList,
       AltText.label "Fotografia de grupo".toList,
       AltText.label "Fotografia de paisagem".toList] ∧
    generateAltText (categorizeImage imageName) imageName ≠
      AltText.label "Fotografia profissional".toList ∧
    ∀ (localeCompare : Str → Str → Int) (allImages : List (Str × Str)),
      ∀ g ∈ generateGalleryImages localeCompare allImages,
        g.alt ≠ AltText.label "Fotografia profissional".toList := by
  have key : ∀ n : Str, generateAltText (categorizeImage n) n ≠
      AltText.label "Fotografia profissional".toList := by
    intro n h
    have hm := generateAltText_category _ (categorizeImage_mem n) n
    rw [h] at hm
    revert hm
    decide
  refine ⟨generateAltText_category _ (categorizeImage_mem imageName) imageName,
    key imageName, ?_⟩
  intro cmp allImages g hg
  obtain ⟨e, _, _, rfl⟩ := (mem_gallery cmp allImages g).mp hg
  exact key e.1

/-- C26, an instance on a gallery of two images. -/
theorem C26_default_unreachable_witness :
    ∀ g ∈ generateGalleryImages codePointCompare
        [("RIK-4487".toList, "a".toList), ("foto".toList, "b".toList)],
      g.alt ≠ AltText.label "Fotografia profissional".toList :=
  (C26_default_unreachable []).2.2 codePointCompare _

/-- C27: for every non-empty string `ds` of decimal digits that does not start
with `0` and every suffix `s` that is empty or starts with a character that is not
a decimal digit, `RIK-` followed by `ds` and `s` has the category of `RIK-`
followed by `ds`. -/
theorem C27_trailing_text (ds s : Str) (hne : ds ≠ []) (hd : ∀ c ∈ ds, c.isDigit = true)
    (h0 : ds.head? ≠ some '0') (hs : ∀ c, s.head? = some c → c.isDigit = false) :
    categorizeImage ("RIK-".toList ++ (ds ++ s)) = categorizeImage ("RIK-".toList ++ ds) := by
  have hno : ∀ c ∈ ds, (fun c => decide (c ≠ '-')) c = true := by
    intro c hc
    exact decide_eq_true (digit_facts c (hd c hc)).2.1
  rw [categorizeImage_rik _ (isPrefixOf_append _ _), categorizeImage_rik _ (isPrefixOf_append _ _),
    second_segment, second_segment, List.takeWhile_append_of_pos hno,
    List.takeWhile_eq_self_iff.mpr hno, parseInt_digits ds hne hd]
  rw [parseInt_digits_then ds _ hne hd h0]
  intro c hc
  cases s with
  | nil => cases hc
  | cons x r =>
    by_cases hx : x = '-'
    · subst hx
      simp [List.takeWhile] at hc
    · have : (x :: r).takeWhile (fun c => decide (c ≠ '-')) =
          x :: r.takeWhile (fun c => decide (c ≠ '-')) := by
        simp [List.takeWhile, hx]
      rw [this] at hc
      simp only [List.head?_cons, Option.some.injEq] at hc
      subst hc
      exact hs x rfl

/-- C27, the examples of the claim: `RIK-4487-2` and `RIK-4487b` are `eventos`
like `RIK-4487`. -/
theorem C27_trailing_text_witness :
    categorizeImage "RIK-4487-2".toList = categorizeImage "RIK-4487".toList ∧
    categorizeImage "RIK-4487b".toList = categorizeImage "RIK-4487".toList ∧
    categorizeImage "RIK-4487".toList = "eventos".toList :=
  ⟨C27_trailing_text "4487".toList "-2".toList (by decide) (by decide) (by decide) (by decide),
   C27_trailing_text "4487".toList "b".toList (by decide) (by decide) (by decide) (by decide),
   by decide⟩

/-- C28: for every string that the constructor `URL` parses, if the host does not
contain `youtu.be` and `searchParams.get('v')` is a non-empty value, the result is
that value, whatever the host and whatever the path, a segment `shorts` or
`embed` included. -/
theorem C28_host_unchecked (newURL : Str → Option UrlRecord) (url : Str) (u : UrlRecord)
    (v : Str) (hne : url ≠ []) (hu : newURL url = some u)
    (hhost : stringIncludes u.hostname "youtu.be".toList = false)
    (hv : u.searchParams.lookup "v".toList = some v) (hvne : v ≠ []) :
    getYouTubeId newURL url = v := by
  unfold getYouTubeId
  rw [if_neg hne, hu]
  simp only [youTubeIdOf, hhost, hv]
  cases v with
  | nil => exact absurd rfl hvne
  | cons c r => rfl

/-- C28, the example of the claim, and a URL with both a parameter `v` and a
segment `shorts`. -/
theorem C28_host_unchecked_witness :
    getYouTubeId plainHttpsUrl "https://example.com/video?v=abc".toList = "abc".toList ∧
    getYouTubeId plainHttpsUrl "https://example.com/shorts/xyz?v=abc".toList = "abc".toList :=
  ⟨C28_host_unchecked plainHttpsUrl "https://example.com/video?v=abc".toList
      { hostname := "example.com".toList, pathname := "/video".toList,
        searchParams := [("v".toList, "abc".toList)] } "abc".toList
      (by decide) (by decide) (by decide) (by decide) (by decide),
   C28_host_unchecked plainHttpsUrl "https://example.com/shorts/xyz?v=abc".toList
      { hostname := "example.com".toList, pathname := "/shorts/xyz".toList,
        searchParams := [("v".toList, "abc".toList)] } "abc".toList
      (by decide) (by decide) (by decide) (by decide) (by decide)⟩

/-- C29: in the record of every text, each of `title`, `youtube`, `videoFile`,
`role` and `year` is the trimmed value of the last line whose key selects that
field, and empty when there is none; the description is the one of the text cut
to start at any description-key line, hence at the last one: what precedes that
line does not count; and it is empty when no line has a description key. -/
theorem C29_last_wins (text path : Str) :
    (parseProjectTxt text path).title =
      (fieldValues Field.title (splitLines text)).getLast?.getD [] ∧
    (parseProjectTxt text path).youtube =
      (fieldValues Field.youtube (splitLines text)).getLast?.getD [] ∧
    (parseProjectTxt text path).videoFile =
      (fieldValues Field.videoFile (splitLines text)).getLast?.getD [] ∧
    (parseProjectTxt text path).role =
      (fieldValues Field.role (splitLines text)).getLast?.getD [] ∧
    (parseProjectTxt text path).year =
      (fieldValues Field.year (splitLines text)).getLast?.getD [] ∧
    (∀ (pre post : List Str) (d : Str), splitLines text = pre ++ d :: post →
      lineField d = some Field.description →
      (parseProjectTxt text path).description = (parseLines (d :: post) path).description) ∧
    ((∀ l ∈ splitLines text, lineField l ≠ some Field.description) →
      (parseProjectTxt text path).description = []) := by
  refine ⟨parseProjectTxt_getField text path .title (by decide),
    parseProjectTxt_getField text path .youtube (by decide),
    parseProjectTxt_getField text path .videoFile (by decide),
    parseProjectTxt_getField text path .role (by decide),
    parseProjectTxt_getField text path .year (by decide), ?_, ?_⟩
  · intro pre post d hs hd
    unfold parseProjectTxt
    rw [parseLines_description, parseLines_description, hs, List.foldl_append, List.foldl_cons,
      List.foldl_cons]
    obtain ⟨buffer, hb⟩ := stepLine_description_line d hd
    rw [foldl_capture_congr post _ (stepLine (initState path) d)
      ((hb _).1.trans (hb _).1.symm) ((hb _).2.trans (hb _).2.symm)]
  · intro hl
    unfold parseProjectTxt
    rw [parseLines_description, (foldl_idle _ _ rfl hl).2]
    rfl

/-- C29, an instance: the second title and the second description block win. -/
theorem C29_last_wins_witness :
    parseProjectTxt "Título: A\nDescrição: old\nx\nTítulo: B \nDescrição: new\ny".toList
      "p".toList =
      { title := "B".toList, description := "new\ny".toList, youtube := [], videoFile := [],
        role := [], year := [], id := "p".toList } ∧
    (parseProjectTxt "Título: A\nDescrição: old\nx\nTítulo: B \nDescrição: new\ny".toList
      "p".toList).description = (parseLines ["Descrição: new".toList, "y".toList]
        "p".toList).description :=
  ⟨by decide,
   (C29_last_wins "Título: A\nDescrição: old\nx\nTítulo: B \nDescrição: new\ny".toList
      "p".toList).2.2.2.2.2.1
      ["Título: A".toList, "Descrição: old".toList, "x".toList, "Título: B ".toList]
      ["y".toList] "Descrição: new".toList (by decide) (by decide)⟩

/-- C30: for every sequence of length `n ≥ 1`, each of the pages 1 to
`totalPages` is non-empty and has at most 12 items, the pages in order
concatenate to the whole sequence, and `goToNextPage` and `goToPreviousPage` send
a page between 1 and `totalPages` to a page between 1 and `totalPages`. -/
theorem C30_pages_partition {α : Type} (galleryImages : List α)
    (hn : 1 ≤ galleryImages.length) :
    (∀ j, j < totalPages galleryImages.length →
      currentImages galleryImages ((j : Int) + 1) ≠ [] ∧
      (currentImages galleryImages ((j : Int) + 1)).length ≤ 12) ∧
    (List.range (totalPages galleryImages.length)).flatMap
      (fun j => currentImages galleryImages ((j : Int) + 1)) = galleryImages ∧
    (∀ currentPage : Int, 1 ≤ currentPage →
      currentPage ≤ (totalPages galleryImages.length : Int) →
      (1 ≤ goToNextPage galleryImages.length currentPage ∧
        goToNextPage galleryImages.length currentPage ≤ (totalPages galleryImages.length : Int)) ∧
      (1 ≤ goToPreviousPage currentPage ∧
        goToPreviousPage currentPage ≤ (totalPages galleryImages.length : Int))) := by
  obtain ⟨hb1, hb2⟩ := totalPages_bounds galleryImages.length
  refine ⟨?_, ?_, ?_⟩
  · intro j hj
    rw [currentImages_page]
    constructor
    · intro h
      have hl := congrArg List.length h
      rw [List.length_take, List.length_drop, List.length_nil] at hl
      have := hb2 hn
      omega
    · rw [List.length_take]; omega
  · rw [pages_bind, List.take_of_length_le hb1]
  · intro cp h1 h2
    unfold goToNextPage goToPreviousPage
    constructor <;> split <;> omega

/-- C30, an instance: a sequence of 30 items, the last and the first page. -/
theorem C30_pages_partition_witness :
    (List.range (totalPages 30)).flatMap
        (fun j => currentImages (List.range 30) ((j : Int) + 1)) = List.range 30 ∧
      goToNextPage 30 3 = 3 ∧ goToPreviousPage 1 = 1 :=
  ⟨by
    have h := (C30_pages_partition (List.range 30) (by decide)).2.1
    rw [List.length_range] at h
    exact h,
   by decide, by decide⟩

end Portfolio
